import Mathlib

/-
Verification of the part-number autofill engine of `static/autofill.js`.

The JavaScript source is shallowly embedded below.  Strings are Lean
`String`s (manipulated through their `List Char` contents); JavaScript
numbers are modelled as exact rationals `ℚ` (the part-number tokens the
engine handles produce only small terminating decimals, where IEEE-754
doubles and exact rationals agree on every operation the code performs:
`parseFloat`, division by 25.4/1000/1000000, `Math.round`, `toFixed(2)`
and default number-to-string printing).  Each specific regular expression
of the source is embedded as a dedicated scanner with JavaScript
semantics (leftmost match, alternatives tried in written order, greedy
quantifiers with backtracking where it can matter).  The DOM bindings are
modelled by explicit record states: an input's description field, a
category `<select>` (list of options, selected value) and a counter of
row-provisioning (`addRow`) signals.
-/

set_option maxRecDepth 16000

namespace APOS

/-! ## Character and string basics -/

/-- ASCII decimal digit test (the `\d` character class). -/
def isDig (c : Char) : Bool := c.isDigit

/-- ASCII letter test. -/
def isAsciiAlpha (c : Char) : Bool := c.isAlpha

/-- The `[a-z0-9]` character class (lower-case ASCII letter or digit). -/
def isLowerAlnum (c : Char) : Bool := c.isLower || c.isDigit

/-- Whitespace, modelling the characters JavaScript's `trim` and `\s`
recognise on the ASCII inputs the engine handles. -/
def isWS (c : Char) : Bool := c.isWhitespace

/-- Trim leading and trailing whitespace from a character list. -/
def trimList (l : List Char) : List Char :=
  ((l.dropWhile isWS).reverse.dropWhile isWS).reverse

/-- JavaScript `String.prototype.trim`. -/
def jsTrim (s : String) : String := String.mk (trimList s.toList)

/-- Lower-case a character list (ASCII; the engine's inputs are ASCII). -/
def lcList (l : List Char) : List Char := l.map Char.toLower

/-- JavaScript `toLowerCase` on the ASCII inputs of the engine. -/
def lcStr (s : String) : String := String.mk (lcList s.toList)

/-- JavaScript `toUpperCase` on the ASCII inputs of the engine. -/
def ucStr (s : String) : String := String.mk (s.toList.map Char.toUpper)

/-- `s.trim().toLowerCase()`, the normalisation used for category labels. -/
def normLabel (s : String) : String := lcStr (jsTrim s)

/-- JavaScript `split` on a character predicate: adjacent separators and
separators at the ends produce empty pieces, and splitting the empty
string gives one empty piece. -/
def splitBy (p : Char → Bool) : List Char → List (List Char)
  | [] => [[]]
  | c :: t =>
    if p c then [] :: splitBy p t
    else
      match splitBy p t with
      | [] => [[c]]
      | h :: r => (c :: h) :: r

/-- Capitalise: first character upper-cased, the rest lower-cased
(`s.charAt(0).toUpperCase() + s.slice(1).toLowerCase()`). -/
def capitalizeLower (s : String) : String :=
  match s.toList with
  | [] => ""
  | c :: t => String.mk (c.toUpper :: lcList t)

/-! ## JavaScript number model

JavaScript numbers are modelled as exact rationals.  (Mathlib's `ℚ`
normalises through `Rat.mul`/`Rat.normalize`, which the kernel cannot
reduce, so the embedding carries its own unnormalised fractions: an
integer numerator over a positive natural denominator.  Every operation
of the source keeps the denominator positive.) -/

/-- An unnormalised fraction `num / den`; every value the engine builds
has `den > 0`.  Two values denote the same number when they
cross-multiply equally, which is what `jqEq` tests. -/
structure JQ where
  num : ℤ
  den : ℕ
  deriving DecidableEq, Repr

/-- The rational denoted by a `JQ` (used only in theorem statements). -/
def JQ.val (q : JQ) : ℚ := (q.num : ℚ) / (q.den : ℚ)

def jqOfNat (n : ℕ) : JQ := ⟨n, 1⟩

def jqOfInt (z : ℤ) : JQ := ⟨z, 1⟩

def jqNeg (q : JQ) : JQ := ⟨-q.num, q.den⟩

/-- `a ≤ b` by cross-multiplication (valid for positive denominators). -/
def jqLe (a b : JQ) : Bool := a.num * b.den ≤ b.num * a.den

/-- `a < b` by cross-multiplication (valid for positive denominators). -/
def jqLt (a b : JQ) : Bool := a.num * b.den < b.num * a.den

/-- Numeric equality by cross-multiplication. -/
def jqEq (a b : JQ) : Bool := a.num * b.den = b.num * a.den

/-- Divide by a positive natural (all of the source's `/ 1000`,
`/ 1000000`, `/ 20` scalings). -/
def jqDivNat (q : JQ) (k : ℕ) : JQ := ⟨q.num, q.den * k⟩

/-- Multiply by a natural (`* 20`, `* 100`, `* 10`). -/
def jqMulNat (q : JQ) (k : ℕ) : JQ := ⟨q.num * k, q.den⟩

/-- Divide by a positive fraction (the source's `/ 25.4`). -/
def jqDivPos (a b : JQ) : JQ := ⟨a.num * b.den, a.den * b.num.toNat⟩

/-- `q + 1/2`. -/
def jqAddHalf (q : JQ) : JQ := ⟨2 * q.num + q.den, 2 * q.den⟩

/-- `⌊q⌋` (floor division; denominators are positive). -/
def jqFloor (q : JQ) : ℤ := Int.fdiv q.num q.den

/-- `q - z` for an integer `z`. -/
def jqSubInt (q : JQ) (z : ℤ) : JQ := ⟨q.num - z * q.den, q.den⟩

/-- Numeric value of a digit list, most significant first. -/
def digitsToNat (ds : List Char) : Nat :=
  ds.foldl (fun a c => a * 10 + (c.toNat - 48)) 0

/-- The rational denoted by the decimal literal `ipart.fpart`. -/
def decToRat (ipart fpart : List Char) : JQ :=
  ⟨digitsToNat ipart * 10 ^ fpart.length + digitsToNat fpart, 10 ^ fpart.length⟩

/-- JavaScript `parseFloat` on a character list: skip leading whitespace,
optional sign, then `digits[.digits]` or `.digits`; trailing garbage is
ignored; `none` models `NaN`.  (The exponent and `Infinity` forms, which
no part-number token exercises, are not modelled.) -/
def parseFloatList (l : List Char) : Option JQ :=
  let l1 := l.dropWhile isWS
  let neg : Bool :=
    match l1 with
    | c :: _ => c = '-'
    | [] => false
  let l2 :=
    match l1 with
    | c :: t => if c = '-' ∨ c = '+' then t else l1
    | [] => l1
  let ds := l2.takeWhile isDig
  let r1 := l2.dropWhile isDig
  let fs :=
    match r1 with
    | '.' :: t => t.takeWhile isDig
    | _ => []
  if ds.isEmpty && fs.isEmpty then none
  else some (if neg then jqNeg (decToRat ds fs) else decToRat ds fs)

/-- JavaScript `parseFloat` on a string. -/
def parseFloatQ (s : String) : Option JQ := parseFloatList s.toList

/-- JavaScript `Math.round`: round half up (`⌊x + 1/2⌋`). -/
def jsRound (q : JQ) : ℤ := jqFloor (jqAddHalf q)

/-- Two-digit decimal string of `n` (`0 ≤ n < 100`). -/
def twoDigits (n : Nat) : String :=
  (if n < 10 then "0" else "") ++ toString n

/-- JavaScript `toFixed(2)` for the non-negative values the engine
produces: round to the nearest hundredth (half up) and print with
exactly two decimals. -/
def ratToFixed2 (q : JQ) : String :=
  let n := jqFloor (jqAddHalf (jqMulNat q 100))
  toString (n / 100) ++ "." ++ twoDigits (n % 100).toNat

/-- Decimal digits of a fractional part `0 ≤ f < 1`, up to `fuel` digits
(every number the engine prints terminates well within the fuel). -/
def fracDigitsAux : Nat → JQ → List Char
  | 0, _ => []
  | fuel + 1, f =>
    if f.num = 0 then []
    else
      let f10 := jqMulNat f 10
      let d := jqFloor f10
      Char.ofNat (48 + d.toNat) :: fracDigitsAux fuel (jqSubInt f10 d)

/-- JavaScript default number-to-string for a non-negative terminating
decimal: integer part, then the fractional digits without trailing
zeros. -/
def ratToStringNN (q : JQ) : String :=
  let i := jqFloor q
  let ds := fracDigitsAux 20 (jqSubInt q i)
  if ds.isEmpty then toString i else toString i ++ "." ++ String.mk ds

/-- JavaScript default number-to-string (template-literal interpolation)
for the terminating decimals the engine produces. -/
def ratToString (q : JQ) : String :=
  if jqLt q ⟨0, 1⟩ then "-" ++ ratToStringNN (jqNeg q) else ratToStringNN q

/-! ## String replacement helpers used by the formatters -/

/-- `replace(/\.00$/, "")`: drop an exact `.00` suffix. -/
def stripDotZeroZero (s : String) : String :=
  match s.toList.reverse with
  | '0' :: '0' :: '.' :: rest => String.mk rest.reverse
  | _ => s

/-- Does a reversed character list continue with `\d*` and then `.`
(reading the original string right to left)? -/
def revDigitsThenDot (l : List Char) : Bool :=
  match l.dropWhile isDig with
  | '.' :: _ => true
  | _ => false

/-- `replace(/(\.\d*[1-9])0$/, "$1")`: drop a final `0` that follows a
non-zero digit inside a decimal fraction. -/
def stripOneTrailingZero (s : String) : String :=
  match s.toList.reverse with
  | '0' :: c :: rest =>
    if ('1' ≤ c && c ≤ '9') && revDigitsThenDot rest
    then String.mk (c :: rest).reverse
    else s
  | _ => s

/-- `replace(/^0/, "")`: drop one leading `0`. -/
def stripLeadingZeroChar (s : String) : String :=
  match s.toList with
  | '0' :: t => String.mk t
  | _ => s

/-- `replace(/R/i, "Ω")`: replace the first `R` or `r`. -/
def replaceFirstRList : List Char → List Char
  | [] => []
  | c :: t => if c = 'R' || c = 'r' then 'Ω' :: t else c :: replaceFirstRList t

/-! ## Extractors (`extractTolerance` / `extractWattage` / `extractVoltage`)

Each models a leftmost regex search: positions are scanned left to
right and at each position the pattern's alternatives are tried in
written order. -/

/-- Match `1%|2%|5%|10%|20%` at the head of the list (alternatives in
written order, as in the source regex). -/
def tolAt (l : List Char) : Option String :=
  match l with
  | '1' :: '%' :: _ => some "1%"
  | '2' :: '%' :: _ => some "2%"
  | '5' :: '%' :: _ => some "5%"
  | '1' :: '0' :: '%' :: _ => some "10%"
  | '2' :: '0' :: '%' :: _ => some "20%"
  | _ => none

/-- Leftmost search for the tolerance pattern. -/
def tolSearch : List Char → Option String
  | [] => none
  | l@(_ :: t) =>
    match tolAt l with
    | some r => some r
    | none => tolSearch t

/-- `extractTolerance`: first `1%|2%|5%|10%|20%` in the token,
upper-cased (the pattern has no letters), or `""`. -/
def extractTolerance (pn : String) : String :=
  match tolSearch pn.toList with
  | some r => r
  | none => ""

/-- Match `\d+(\.\d+)?W` (case-insensitive `W`) at the head of the list;
returns the matched text upper-cased.  A shorter `\d+` cannot rescue a
failed match (the next character would be a digit, not `.` or `W`), so
the greedy scan is exact. -/
def wattAt (l : List Char) : Option String :=
  let d1 := l.takeWhile isDig
  let r1 := l.dropWhile isDig
  if d1.isEmpty then none
  else
    match r1 with
    | '.' :: r2 =>
      let d2 := r2.takeWhile isDig
      let r3 := r2.dropWhile isDig
      if d2.isEmpty then none
      else
        match r3 with
        | c :: _ =>
          if c = 'w' || c = 'W'
          then some (String.mk (d1 ++ '.' :: d2 ++ ['W']))
          else none
        | [] => none
    | c :: _ =>
      if c = 'w' || c = 'W' then some (String.mk (d1 ++ ['W'])) else none
    | [] => none

/-- Leftmost search for the wattage pattern. -/
def wattSearch : List Char → Option String
  | [] => none
  | l@(_ :: t) =>
    match wattAt l with
    | some r => some r
    | none => wattSearch t

/-- `extractWattage`: first `\d+(\.\d+)?W` in the token (any case),
upper-cased, or `""`. -/
def extractWattage (pn : String) : String :=
  match wattSearch pn.toList with
  | some r => r
  | none => ""

/-- Match `\d+V` (case-insensitive) at the head of the list; returns the
match upper-cased. -/
def voltAt (l : List Char) : Option String :=
  let d1 := l.takeWhile isDig
  let r1 := l.dropWhile isDig
  if d1.isEmpty then none
  else
    match r1 with
    | c :: _ => if c = 'v' || c = 'V' then some (String.mk (d1 ++ ['V'])) else none
    | [] => none

/-- Leftmost search for the voltage pattern. -/
def voltSearch : List Char → Option String
  | [] => none
  | l@(_ :: t) =>
    match voltAt l with
    | some r => some r
    | none => voltSearch t

/-- `extractVoltage`: first `\d+V` in the token (any case), upper-cased,
or `""`. -/
def extractVoltage (pn : String) : String :=
  match voltSearch pn.toList with
  | some r => r
  | none => ""

/-! ## `formatResistor` -/

/-- Translate the unit letter of a resistor token: `K` → `k`, `M` → `M`,
anything else (i.e. `R`) → `""`. -/
def rkmTranslate (c : Char) : String :=
  if c = 'K' then "k" else if c = 'M' then "M" else ""

/-- Full-string match of `^(\d+)([RKM])(\d+)$` on the upper-cased token:
returns the two digit groups and the unit letter. -/
def rkmShorthand (l : List Char) : Option (List Char × Char × List Char) :=
  let d1 := l.takeWhile isDig
  let r1 := l.dropWhile isDig
  if d1.isEmpty then none
  else
    match r1 with
    | c :: r2 =>
      if c = 'R' || c = 'K' || c = 'M' then
        let d2 := r2.takeWhile isDig
        let r3 := r2.dropWhile isDig
        if d2.isEmpty then none
        else if r3.isEmpty then some (d1, c, d2) else none
      else none
    | [] => none

/-- Full-string match of `^(\d+(\.\d+)?)([RKM])$` on the upper-cased
token: returns the numeric part (as integer and fraction digits) and the
unit letter. -/
def rkmNumeric (l : List Char) : Option (List Char × List Char × Char) :=
  let d1 := l.takeWhile isDig
  let r1 := l.dropWhile isDig
  if d1.isEmpty then none
  else
    match r1 with
    | '.' :: r2 =>
      let d2 := r2.takeWhile isDig
      let r3 := r2.dropWhile isDig
      if d2.isEmpty then none
      else
        match r3 with
        | [c] => if c = 'R' || c = 'K' || c = 'M' then some (d1, d2, c) else none
        | _ => none
    | [c] => if c = 'R' || c = 'K' || c = 'M' then some (d1, [], c) else none
    | _ => none

/-- Full-string match of `^(\d+(\.\d+)?)R$` on the upper-cased token. -/
def rOnlyMatch (l : List Char) : Option (List Char × List Char) :=
  match rkmNumeric l with
  | some (d1, d2, c) => if c = 'R' then some (d1, d2) else none
  | none => none

/-- `formatResistor` (source lines 85–120): shorthand `4K7` notation,
`<number><R|K|M>` notation, bare numbers (scaled to `MΩ`/`kΩ` at the
million/thousand thresholds with `toFixed(2)` and a literal `.00` suffix
stripped), and the final `R` → `Ω` fallback. -/
def formatResistor (val : String) : String :=
  let upper := (ucStr val).toList
  match rkmShorthand upper with
  | some (leading, c, trailing) =>
    ratToString (decToRat leading trailing) ++ rkmTranslate c ++ "Ω"
  | none =>
    match rkmNumeric upper with
    | some (d1, d2, c) =>
      ratToString (decToRat d1 d2) ++ rkmTranslate c ++ "Ω"
    | none =>
      match rOnlyMatch upper with
      | some (d1, d2) => ratToString (decToRat d1 d2) ++ "Ω"
      | none =>
        match parseFloatQ val with
        | some numeric =>
          if jqLe (jqOfNat 1000000) numeric then
            stripDotZeroZero (ratToFixed2 (jqDivNat numeric 1000000)) ++ "MΩ"
          else if jqLe (jqOfNat 1000) numeric then
            stripDotZeroZero (ratToFixed2 (jqDivNat numeric 1000)) ++ "kΩ"
          else ratToString numeric ++ "Ω"
        | none => String.mk (replaceFirstRList val.toList)

/-! ## `normalizeWattage` -/

/-- Leftmost maximal run of `[\d.]+`. -/
def classRunSearch (p : Char → Bool) : List Char → Option (List Char)
  | [] => none
  | c :: t =>
    if p c then some ((c :: t).takeWhile p) else classRunSearch p t

/-- `normalizeWattage` (source lines 125–140): parse the leading numeric
fragment; the four standard fractional wattages print as fractions,
anything else as `{value}w`. -/
def normalizeWattage (wattStr : String) : String :=
  if wattStr = "" then ""
  else
    match classRunSearch (fun c => isDig c || c = '.') wattStr.toList with
    | none => wattStr
    | some cls =>
      match parseFloatList cls with
      | none => wattStr
      | some numeric =>
        if jqEq numeric ⟨1, 8⟩ then "1/8w"
        else if jqEq numeric ⟨1, 4⟩ then "1/4w"
        else if jqEq numeric ⟨1, 2⟩ then "1/2w"
        else if jqEq numeric ⟨3, 4⟩ then "3/4w"
        else ratToString numeric ++ "w"

/-! ## `parseCapacitance` -/

/-- Match `(\d+)[ur](\d+)` at the head of the list. -/
def capShorthandAt (l : List Char) : Option (List Char × List Char) :=
  let d1 := l.takeWhile isDig
  let r1 := l.dropWhile isDig
  if d1.isEmpty then none
  else
    match r1 with
    | c :: r2 =>
      if c = 'u' || c = 'r' then
        let d2 := r2.takeWhile isDig
        if d2.isEmpty then none else some (d1, d2)
      else none
    | [] => none

/-- Leftmost search for `(\d+)[ur](\d+)`. -/
def capShorthandSearch : List Char → Option (List Char × List Char)
  | [] => none
  | l@(_ :: t) =>
    match capShorthandAt l with
    | some r => some r
    | none => capShorthandSearch t

/-- Match `(\d+)u` at the head of the list. -/
def capBareUAt (l : List Char) : Option (List Char) :=
  let d1 := l.takeWhile isDig
  let r1 := l.dropWhile isDig
  if d1.isEmpty then none
  else
    match r1 with
    | 'u' :: _ => some d1
    | _ => none

/-- Leftmost search for `(\d+)u`. -/
def capBareUSearch : List Char → Option (List Char)
  | [] => none
  | l@(_ :: t) =>
    match capBareUAt l with
    | some r => some r
    | none => capBareUSearch t

/-- Match `([\d.]+)\s*u?f` at the head of the list (the optional `u`
backtracks only onto a literal `f`, so the direct scan is exact). -/
def capUfAt (l : List Char) : Option (List Char) :=
  let cls := l.takeWhile (fun c => isDig c || c = '.')
  let r1 := l.dropWhile (fun c => isDig c || c = '.')
  if cls.isEmpty then none
  else
    match r1.dropWhile isWS with
    | 'u' :: 'f' :: _ => some cls
    | 'f' :: _ => some cls
    | _ => none

/-- Leftmost search for `([\d.]+)\s*u?f`. -/
def capUfSearch : List Char → Option (List Char)
  | [] => none
  | l@(_ :: t) =>
    match capUfAt l with
    | some r => some r
    | none => capUfSearch t

/-- `parseCapacitance` (source lines 142–159): lower-case the raw token
and try, in order, `4u7`/`4r7` shorthand, bare `10u`, and an explicit
`uf`/`f` suffix; `none` when nothing matches. -/
def parseCapacitance (raw : String) : Option String :=
  if raw = "" then none
  else
    let l := (lcStr raw).toList
    match capShorthandSearch l with
    | some (a, b) => some (String.mk a ++ "." ++ String.mk b ++ "uF")
    | none =>
      match capBareUSearch l with
      | some d => some (String.mk d ++ "uF")
      | none =>
        match capUfSearch l with
        | some cls => some (String.mk cls ++ "uF")
        | none => none

/-! ## `normalizeRatingToken` -/

/-- Strip trailing zeros of the fractional part of a matched
`\d+(\.\d+)?` value, dropping the dot when the whole fraction was zeros
(the source's `replace(/(\.\d*[1-9])0+$/, "$1").replace(/\.0+$/, "")`,
which on that anchored shape is exactly this normalisation). -/
def stripFracZeros (d1 d2 : List Char) : String :=
  let d2s := (d2.reverse.dropWhile (fun c => c = '0')).reverse
  if d2s.isEmpty then String.mk d1 else String.mk d1 ++ "." ++ String.mk d2s

/-- Full-string match of `^(\d+(?:\.\d+)?)(kv|v|ma|a)$` on the
normalised token, returning the value digits and the canonical unit. -/
def ratingParse (l : List Char) : Option (List Char × List Char × String) :=
  let d1 := l.takeWhile isDig
  let r1 := l.dropWhile isDig
  if d1.isEmpty then none
  else
    let (d2, r3) : List Char × List Char :=
      match r1 with
      | '.' :: r2 =>
        if (r2.takeWhile isDig).isEmpty then ([], r1)
        else (r2.takeWhile isDig, r2.dropWhile isDig)
      | _ => ([], r1)
    -- a `.` not followed by digits can only fail: the unit never starts with `.`
    match r3 with
    | ['k', 'v'] => some (d1, d2, "kV")
    | ['v'] => some (d1, d2, "V")
    | ['m', 'a'] => some (d1, d2, "mA")
    | ['a'] => some (d1, d2, "A")
    | _ => none

/-- `normalizeRatingToken` (source lines 289–305): recognise
`<number>(kv|v|ma|a)` on the trimmed lower-cased token, canonicalise the
unit spelling and strip trailing fractional zeros; `""` otherwise. -/
def normalizeRatingToken (token : String) : String :=
  if token = "" then ""
  else
    let normalized := lcStr (jsTrim token)
    if normalized = "" then ""
    else
      match ratingParse normalized.toList with
      | none => ""
      | some (d1, d2, unit) => stripFracZeros d1 d2 ++ unit

/-! ## `formatInductorValue` -/

/-- Full-string test of `^\d+[mun]\d*$`. -/
def indShape1 (l : List Char) : Bool :=
  let d1 := l.takeWhile isDig
  let r1 := l.dropWhile isDig
  if d1.isEmpty then false
  else
    match r1 with
    | c :: r2 => (c = 'm' || c = 'u' || c = 'n') && (r2.dropWhile isDig).isEmpty
    | [] => false

/-- Full-string match of `^(\d+)(?:\.(\d+))?([mun])?$`. -/
def indParse (l : List Char) : Option (List Char × List Char × Option Char) :=
  let d1 := l.takeWhile isDig
  let r1 := l.dropWhile isDig
  if d1.isEmpty then none
  else
    let (d2, r3) : List Char × List Char :=
      match r1 with
      | '.' :: r2 =>
        if (r2.takeWhile isDig).isEmpty then ([], r1)
        else (r2.takeWhile isDig, r2.dropWhile isDig)
      | _ => ([], r1)
    match r3 with
    | [] => some (d1, d2, none)
    | [c] => if c = 'm' || c = 'u' || c = 'n' then some (d1, d2, some c) else none
    | _ => none

/-- `formatInductorValue` (source lines 307–326): trim and lower-case,
drop a trailing `h`, turn `µ` into `u`; tokens already of shape
`\d+[mun]\d*` pass through; otherwise `<int>[.<frac>]?[m|u|n]?` is
rebuilt as `{int}{unit}{frac}` with default unit `u`; unmatched tokens
pass through unchanged. -/
def formatInductorValue (raw : String) : String :=
  if raw = "" then ""
  else
    let token0 := lcStr (jsTrim raw)
    if token0 = "" then ""
    else
      let l1 :=
        match token0.toList.reverse with
        | 'h' :: rest => rest.reverse
        | _ => token0.toList
      let l := l1.map (fun c => if c = 'µ' then 'u' else c)
      if indShape1 l then String.mk l
      else
        match indParse l with
        | none => String.mk l
        | some (d1, d2, unitOpt) =>
          let unit := match unitOpt with
            | some c => String.mk [c]
            | none => "u"
          if d2.isEmpty then String.mk d1 ++ unit
          else String.mk d1 ++ unit ++ String.mk d2

/-! ## Mechanical hardware grammar -/

/-- Static metadata of one mechanical type code
(`MECHANICAL_TYPE_DETAILS` entries). -/
structure TypeDetail where
  label : String
  category : String
  specSuffix : String
  joiner : String
  deriving DecidableEq, Repr

/-- The `MECHANICAL_TYPE_DETAILS` table (source lines 183–197). -/
def MECHANICAL_TYPE_DETAILS (key : String) : Option TypeDetail :=
  if key = "hst" then some ⟨"Heat Shrink", "Mechanical", "", " - "⟩
  else if key = "shrink" then some ⟨"Heat Shrink", "Mechanical", "", " - "⟩
  else if key = "heatshrink" then some ⟨"Heat Shrink", "Mechanical", "", " - "⟩
  else if key = "nut" then some ⟨"Nut", "Mechanical", "", " "⟩
  else if key = "blt" then some ⟨"Bolt", "Mechanical", "", " - "⟩
  else if key = "wsh" then some ⟨"Washer", "Mechanical", " diameter", " "⟩
  else if key = "rng" then some ⟨"O-Ring", "Mechanical", " diameter", " "⟩
  else if key = "spc" then some ⟨"Spacer", "Mechanical", " diameter", " "⟩
  else if key = "stf" then some ⟨"Standoff", "Mechanical", "", " - "⟩
  else if key = "standoff" then some ⟨"Standoff", "Mechanical", "", " - "⟩
  else if key = "spacer" then some ⟨"Spacer", "Mechanical", " diameter", " "⟩
  else if key = "washer" then some ⟨"Washer", "Mechanical", " diameter", " "⟩
  else if key = "bearing" then some ⟨"Bearing", "Mechanical", " diameter", " "⟩
  else none

/-- After `^\d+` of the underscore-fraction test: more digits, `_`
followed by at least one digit, or a final case-insensitive `in`.
Together with a leading digit this decides
`^\d+(?:_\d+)+(?:in)?$` on strings that contain an underscore (the only
strings `normalizeToken` tests). -/
def underDigits : List Char → Bool
  | [] => true
  | c :: r =>
    if isDig c then underDigits r
    else if c = '_' then
      match r with
      | c2 :: r2 => isDig c2 && underDigits r2
      | [] => false
    else
      (c = 'i' || c = 'I') &&
        (match r with
         | [c2] => c2 = 'n' || c2 = 'N'
         | _ => false)

/-- `^\d+(?:_\d+)+(?:in)?$` (case-insensitive), for strings containing
an underscore. -/
def fracUnders (l : List Char) : Bool :=
  match l with
  | [] => false
  | c :: r => isDig c && underDigits r

/-- `normalizeToken` (source lines 201–212): trim; a token of shape
`digits(_digits)+[in]` turns its underscores into `/`, any other token
containing `_` turns them into spaces. -/
def normalizeToken (token : String) : String :=
  if token = "" then ""
  else
    let n := trimList token.toList
    if n.contains '_' then
      if fracUnders n then String.mk (n.map (fun c => if c = '_' then '/' else c))
      else String.mk (n.map (fun c => if c = '_' then ' ' else c))
    else String.mk n

/-- `mmToInchesRounded` on an already-numeric argument:
`Math.round((mm / 25.4) * 20) / 20`. -/
def mmToInchesRoundedQ (p : JQ) : JQ :=
  jqDivNat (jqOfInt (jsRound (jqMulNat (jqDivPos p ⟨254, 10⟩) 20))) 20

/-- `mmToInchesRounded` (source lines 214–218): `parseFloat` the
argument, `none` on `NaN` (the source returns `null`). -/
def mmToInchesRounded (mm : String) : Option JQ :=
  (parseFloatQ mm).map mmToInchesRoundedQ

/-- `formatInches` (source lines 220–232) with its default
`stripLeadingZero = true` (no caller of the source ever overrides it):
`toFixed(2)`; for values ≥ 1 one trailing zero after a non-zero digit
and then an exact `.00` suffix are stripped; for values in (0,1) the
leading `0` is stripped; a double-quote inch mark is appended.  `none`
(the source's `null`/`undefined`) gives `""`. -/
def formatInches (o : Option JQ) : String :=
  match o with
  | none => ""
  | some inches =>
    let str := ratToFixed2 inches
    let str :=
      if jqLe ⟨1, 1⟩ inches then stripDotZeroZero (stripOneTrailingZero str) else str
    let str :=
      if jqLt ⟨0, 1⟩ inches && jqLt inches ⟨1, 1⟩ then stripLeadingZeroChar str else str
    str ++ "\""

/-! ### Shape tests used by the mechanical size/spec formatters -/

/-- `^\d+\/\d+$`. -/
def fracShape (l : List Char) : Bool :=
  let d1 := l.takeWhile isDig
  let r1 := l.dropWhile isDig
  if d1.isEmpty then false
  else
    match r1 with
    | '/' :: r2 =>
      let d2 := r2.takeWhile isDig
      let r3 := r2.dropWhile isDig
      !d2.isEmpty && r3.isEmpty
    | _ => false

/-- `^\d+\/\d+in$` (case-insensitive). -/
def fracInShape (l : List Char) : Bool :=
  match l.reverse with
  | n :: i :: rest =>
    ((n = 'n' || n = 'N') && (i = 'i' || i = 'I')) && fracShape rest.reverse
  | _ => false

/-- `^\d+(mm|cm|m|in)$` (case-insensitive). -/
def numUnitShape (l : List Char) : Bool :=
  let d1 := l.takeWhile isDig
  let r1 := lcList (l.dropWhile isDig)
  if d1.isEmpty then false
  else r1 = ['m', 'm'] || r1 = ['c', 'm'] || r1 = ['m'] || r1 = ['i', 'n']

/-- `/in$/i`: ends with `in` (case-insensitive). -/
def endsInIn (l : List Char) : Bool :=
  match l.reverse with
  | n :: i :: _ => (n = 'n' || n = 'N') && (i = 'i' || i = 'I')
  | _ => false

/-- `^\d+(?:\.\d+)?$`. -/
def numShape (l : List Char) : Bool :=
  let d1 := l.takeWhile isDig
  let r1 := l.dropWhile isDig
  if d1.isEmpty then false
  else
    match r1 with
    | [] => true
    | '.' :: r2 =>
      let d2 := r2.takeWhile isDig
      !d2.isEmpty && (r2.dropWhile isDig).isEmpty
    | _ => false

/-- `^\d+$`. -/
def pureIntShape (l : List Char) : Bool :=
  !l.isEmpty && (l.dropWhile isDig).isEmpty

/-- `^m\d+` (case-insensitive, prefix test). -/
def mStartShape (l : List Char) : Bool :=
  match l with
  | c :: d :: _ => (c = 'm' || c = 'M') && isDig d
  | _ => false

/-- `^\d+(mm)?$` (case-insensitive). -/
def numMmShape (l : List Char) : Bool :=
  let d1 := l.takeWhile isDig
  let r1 := lcList (l.dropWhile isDig)
  if d1.isEmpty then false
  else r1 = [] || r1 = ['m', 'm']

/-- Tail of `formatMechanicalSize` after the fraction and
`digits+length-unit` branches: pure numbers (metric thread sizes in size
position, millimetre conversion otherwise), `m<digits>` thread codes,
and the generic short/long token casing. -/
def mechSizeRest (normalized : String) (sizeToken : Bool) : String :=
  let l := normalized.toList
  if numShape l then
    if sizeToken && pureIntShape l then "M" ++ normalized
    else formatInches (mmToInchesRounded normalized)
  else if mStartShape l then ucStr normalized
  else if normalized.length ≤ 3 then ucStr normalized
  else capitalizeLower normalized

/-- `formatMechanicalSize` (source lines 234–272).  In the
`\d+(mm|cm|m|in)` branch the source falls through when `parseFloat`
returns `NaN`, which cannot happen for that shape; the fall-through is
embedded faithfully all the same. -/
def formatMechanicalSize (token : String) (sizeToken : Bool) : String :=
  let normalized := normalizeToken token
  if normalized = "" then ""
  else
    let l := normalized.toList
    if fracShape l then normalized ++ "\""
    else if fracInShape l then
      String.mk (l.take (l.length - 2)) ++ "\""
    else if numUnitShape l then
      if endsInIn l then
        String.mk ((ucStr normalized).toList.take (l.length - 2)) ++ "\""
      else
        match parseFloatQ normalized with
        | some mm => formatInches (some (mmToInchesRoundedQ mm))
        | none => mechSizeRest normalized sizeToken
    else mechSizeRest normalized sizeToken

/-- `formatMechanicalSpec` (source lines 274–287): bare (optionally
`mm`-suffixed) numbers convert to inches, fractions take an inch mark,
and anything else re-enters `formatMechanicalSize` on the original
token without the size-position flag. -/
def formatMechanicalSpec (token : String) : String :=
  let normalized := normalizeToken token
  if normalized = "" then ""
  else
    let l := normalized.toList
    if numMmShape l then formatInches (mmToInchesRounded normalized)
    else if fracShape l then normalized ++ "\""
    else formatMechanicalSize token false

/-- Does the token start with `mec-` or `mec_` (case-insensitive)? -/
def mecTest (l : List Char) : Bool :=
  match l with
  | a :: b :: c :: d :: _ =>
    ((a.toLower = 'm' && b.toLower = 'e') && c.toLower = 'c') && (d = '-' || d = '_')
  | _ => false

/-- `replace(/^mec[-_]?/i, "")`: drop a leading `mec` and one optional
separator. -/
def stripMec (l : List Char) : List Char :=
  match l with
  | a :: b :: c :: rest =>
    if (a.toLower = 'm' && b.toLower = 'e') && c.toLower = 'c' then
      match rest with
      | d :: rest2 => if d = '-' || d = '_' then rest2 else rest
      | [] => []
    else l
  | _ => l

/-- The `pn` after the optional `MEC-`/`MEC_` prefix strip
(source lines 331–334). -/
def mechCleaned (pn : String) : List Char :=
  if mecTest pn.toList then stripMec pn.toList else pn.toList

/-- Hyphen segments of the cleaned token, trimmed, empties dropped
(source line 336). -/
def mechSegments (pn : String) : List String :=
  (((splitBy (fun c => c = '-') (mechCleaned pn)).map
      (fun l => String.mk (trimList l))).filter (fun s => s ≠ ""))

/-- Result record of the mechanical (and, below, diode-family)
builders. -/
structure MechResult where
  description : String
  category : Option String
  typeLabel : String
  deriving DecidableEq, Repr

/-- `buildMechanicalDescription` (source lines 328–376): optional
`MEC-`/`MEC_` prefix strip, hyphen segmentation, type-code lookup
(declining on unknown codes), size and spec formatting, suffix and
joiner assembly. -/
def buildMechanicalDescription (pn : String) : Option MechResult :=
  if pn = "" then none
  else
    match mechSegments pn with
    | [] => none
    | rawType :: rest =>
      let typeKey := lcStr rawType
      match MECHANICAL_TYPE_DETAILS typeKey with
      | none => none
      | some typeDetail =>
        let typeLabel :=
          if typeDetail.label ≠ "" then typeDetail.label
          else formatMechanicalSize rawType false
        let catOpt :=
          if typeDetail.category ≠ "" then some typeDetail.category else none
        match rest with
        | [] => some ⟨typeLabel, catOpt, typeLabel⟩
        | sz :: specs =>
          let sizeDesc := formatMechanicalSize sz true
          let specTokens := (specs.map formatMechanicalSpec).filter (fun s => s ≠ "")
          let specDesc0 := String.intercalate " " specTokens
          let specDesc :=
            if specDesc0 ≠ "" && typeDetail.specSuffix ≠ "" then
              specDesc0 ++ typeDetail.specSuffix
            else specDesc0
          let d1 := typeLabel
          let d2 := if sizeDesc ≠ "" then d1 ++ " " ++ sizeDesc else d1
          let d3 := if specDesc ≠ "" then d2 ++ typeDetail.joiner ++ specDesc else d2
          some ⟨jsTrim d3, catOpt, typeLabel⟩

/-! ## Diode / transistor / inductor / IC grammars -/

/-- Does `l` start with the letters of `p` (case-insensitive) followed
by `-` or `_`?  (The `^dio[-_]/i`-style trigger tests.) -/
def ciPrefixSep (p : List Char) (l : List Char) : Bool :=
  match p with
  | [] =>
    match l with
    | d :: _ => d = '-' || d = '_'
    | [] => false
  | c :: pr =>
    match l with
    | x :: xs => x.toLower = c && ciPrefixSep pr xs
    | [] => false

/-- `replace(/^xxx[-_]?/i, "")`: drop the letters of `p` and one
optional separator (used only where the trigger test passed). -/
def stripCiPrefixSep (p : List Char) (l : List Char) : List Char :=
  match p with
  | [] =>
    match l with
    | d :: rest => if d = '-' || d = '_' then rest else l
    | [] => []
  | _ :: pr =>
    match l with
    | _ :: xs => stripCiPrefixSep pr xs
    | [] => []

/-- Split on `-`/`_`, trim each piece, drop empties (the shared
`split(/[-_]/).map(trim).filter(Boolean)` idiom). -/
def dashUnderSegments (l : List Char) : List String :=
  ((splitBy (fun c => c = '-' || c = '_') l).map
      (fun x => String.mk (trimList x))).filter (fun s => s ≠ "")

/-- Description/category pair produced by the diode-family builders. -/
structure DTResult where
  description : String
  category : String
  deriving DecidableEq, Repr

/-- `buildDiodeDescription` (source lines 378–392): `dio[-_]` prefix,
first segment upper-cased, first rating-shaped later segment appended. -/
def buildDiodeDescription (pn : String) : Option DTResult :=
  if ciPrefixSep ['d', 'i', 'o'] pn.toList then
    let cleaned := stripCiPrefixSep ['d', 'i', 'o'] pn.toList
    if cleaned.isEmpty then none
    else
      match dashUnderSegments cleaned with
      | [] => none
      | v :: rest =>
        let value := ucStr v
        match (rest.map normalizeRatingToken).find? (fun r => r ≠ "") with
        | some r => some ⟨value ++ ", " ++ r, "Diode"⟩
        | none => some ⟨value, "Diode"⟩
  else none

/-- `buildTransistorDescription` (source lines 394–408): as the diode
builder with prefix `trn` and category `Transistor`. -/
def buildTransistorDescription (pn : String) : Option DTResult :=
  if ciPrefixSep ['t', 'r', 'n'] pn.toList then
    let cleaned := stripCiPrefixSep ['t', 'r', 'n'] pn.toList
    if cleaned.isEmpty then none
    else
      match dashUnderSegments cleaned with
      | [] => none
      | v :: rest =>
        let value := ucStr v
        match (rest.map normalizeRatingToken).find? (fun r => r ≠ "") with
        | some r => some ⟨value ++ ", " ++ r, "Transistor"⟩
        | none => some ⟨value, "Transistor"⟩
  else none

/-- `buildInductorDescription` (source lines 410–425): `ind[-_]` prefix,
first segment through the inductance formatter (declining when it
yields nothing), first rating-shaped later segment appended. -/
def buildInductorDescription (pn : String) : Option DTResult :=
  if ciPrefixSep ['i', 'n', 'd'] pn.toList then
    let cleaned := stripCiPrefixSep ['i', 'n', 'd'] pn.toList
    if cleaned.isEmpty then none
    else
      match dashUnderSegments cleaned with
      | [] => none
      | v :: rest =>
        let valueToken := formatInductorValue v
        if valueToken = "" then none
        else
          match (rest.map normalizeRatingToken).find? (fun r => r ≠ "") with
          | some r => some ⟨valueToken ++ ", " ++ r, "Inductor"⟩
          | none => some ⟨valueToken, "Inductor"⟩
  else none

/-- `buildICDescription` (source lines 427–436): `ic[-_]` prefix; the
trimmed remainder upper-cased is the whole description. -/
def buildICDescription (pn : String) : Option DTResult :=
  if ciPrefixSep ['i', 'c'] pn.toList then
    let cleaned := stripCiPrefixSep ['i', 'c'] pn.toList
    let value := String.mk (trimList cleaned)
    if value = "" then none else some ⟨ucStr value, "IC"⟩
  else none

/-- `/esp32/i.test(pn)`: case-insensitive substring search. -/
def esp32Test : List Char → Bool
  | [] => false
  | l@(_ :: t) =>
    match lcList l with
    | 'e' :: 's' :: 'p' :: '3' :: '2' :: _ => true
    | _ => esp32Test t

/-! ## Capacitor token search of the main pipeline -/

/-- Length matched at the head of the list by the alternation
`\d+r\d+u?|\d+u\d+|\d+u|cap[-_]\d+[a-z0-9]+`, alternatives in written
order.  In the last alternative `\d+` backtracks to leave at least one
character to `[a-z0-9]+`; since digits belong to that class too, the
alternative matches exactly when the digit run is non-empty and digit
run plus following alphanumeric run cover at least two characters. -/
def capAltAt (l : List Char) : Option Nat :=
  let d1 := l.takeWhile isDig
  let r1 := l.dropWhile isDig
  if !d1.isEmpty then
    match r1 with
    | 'r' :: r2 =>
      let d2 := r2.takeWhile isDig
      let r3 := r2.dropWhile isDig
      if d2.isEmpty then none
      else
        match r3 with
        | 'u' :: _ => some (d1.length + 1 + d2.length + 1)
        | _ => some (d1.length + 1 + d2.length)
    | 'u' :: r2 =>
      let d2 := r2.takeWhile isDig
      if d2.isEmpty then some (d1.length + 1)
      else some (d1.length + 1 + d2.length)
    | _ => none
  else
    match l with
    | 'c' :: 'a' :: 'p' :: s :: rest =>
      if s = '-' || s = '_' then
        let d := rest.takeWhile isDig
        let cls := (rest.dropWhile isDig).takeWhile isLowerAlnum
        if !d.isEmpty && 2 ≤ d.length + cls.length then
          some (4 + d.length + cls.length)
        else none
      else none
    | _ => none

/-- Leftmost match of the capacitor-token alternation, returning the
matched substring (`capToken[1]` of source line 551; the pipeline runs
it on the lower-cased token, so the `cap` literal needs no case
folding). -/
def capTokenSearch : List Char → Option String
  | [] => none
  | l@(_ :: t) =>
    match capAltAt l with
    | some n => some (String.mk (l.take n))
    | none => capTokenSearch t

/-! ## Resistor token search of the main pipeline -/

/-- Match `res[-_]?([0-9a-z\.]+)` (case-insensitive) at the head of the
list, returning the captured value token in its original case.  After
`res`, a separator is consumed only when at least one class character
follows it (otherwise the optional group backtracks and the class must
match the separator itself, which fails). -/
def resAt (l : List Char) : Option String :=
  match l with
  | a :: b :: c :: rest =>
    if (a.toLower = 'r' && b.toLower = 'e') && c.toLower = 's' then
      let cls := fun ch : Char => (isDig ch || isAsciiAlpha ch) || ch = '.'
      match rest with
      | d :: rest2 =>
        if d = '-' || d = '_' then
          let run := rest2.takeWhile cls
          if run.isEmpty then none else some (String.mk run)
        else
          let run := rest.takeWhile cls
          if run.isEmpty then none else some (String.mk run)
      | [] => none
    else none
  | _ => none

/-- Leftmost search for the resistor pattern. -/
def resSearch : List Char → Option String
  | [] => none
  | l@(_ :: t) =>
    match resAt l with
    | some r => some r
    | none => resSearch t

/-! ## Generic fallback -/

/-- `GENERIC_PREFIX_SKIP` (source line 199; renamed: `prefix` is
reserved in Lean). -/
def GENERIC_SKIP : List String := ["mec", "res", "cap", "ic", "mcu", "pcb", "asm"]

/-- `^\d+(mm|cm|in|ft)$` (case-insensitive). -/
def genUnitShape (l : List Char) : Bool :=
  let d1 := l.takeWhile isDig
  let r1 := lcList (l.dropWhile isDig)
  if d1.isEmpty then false
  else ((r1 = ['m', 'm'] || r1 = ['c', 'm']) || r1 = ['i', 'n']) || r1 = ['f', 't']

/-- `formatGeneralToken` (source lines 438–459): fractions take an inch
mark, `digits+length-unit` tokens upper-case, bare integers pass
through, short tokens upper-case, longer tokens capitalise. -/
def formatGeneralToken (token : String) : String :=
  let normalized := normalizeToken token
  if normalized = "" then ""
  else
    let l := normalized.toList
    if fracShape l then normalized ++ "\""
    else if genUnitShape l then ucStr normalized
    else if pureIntShape l then normalized
    else if normalized.length ≤ 3 then ucStr normalized
    else capitalizeLower normalized

/-- `fallbackDescriptionFromPartNumber` (source lines 461–477): split on
`-`/`_`, drop a first segment that is a known generic family code,
humanise each remaining token and join with spaces. -/
def fallbackDescriptionFromPartNumber (pn : String) : String :=
  match dashUnderSegments pn.toList with
  | [] => ""
  | first :: restT =>
    let filtered :=
      if GENERIC_SKIP.contains (lcStr first) then restT else first :: restT
    match filtered with
    | [] => ""
    | _ =>
      jsTrim (String.intercalate " "
        ((filtered.map formatGeneralToken).filter (fun s => s ≠ "")))

/-! ## External destinations (DOM bindings) -/

/-- One `<option>` of the category `<select>`. -/
structure SelectOption where
  text : String
  value : String
  deriving DecidableEq, Repr

/-- The category `<select>`: its options and the selected `value`. -/
structure CategorySelect where
  options : List SelectOption
  value : String
  deriving DecidableEq, Repr

/-- `setCategory` (source lines 8–17): select the first option whose
text matches the target case-insensitively after trimming; otherwise
leave the selection untouched. -/
def setCategory (sel : CategorySelect) (targetText : String) : CategorySelect :=
  match sel.options.find? (fun o => normLabel o.text = normLabel targetText) with
  | some o => { sel with value := o.value }
  | none => sel

/-- `categoryOptionExists` (source lines 19–26). -/
def categoryOptionExists (sel : CategorySelect) (targetText : String) : Bool :=
  if targetText = "" then false
  else
    let normalized := normLabel targetText
    if normalized = "" then false
    else sel.options.any (fun o => normLabel o.text = normalized)

/-! ## Category prefix mappings -/

/-- One entry of `window.categoryPrefixMappings`; `pfx` is the source's
`prefix` field (`prefix` is reserved in Lean).  A `none` in the mapping
list models a `null`/`undefined` entry; an absent `prefix`/`category`
field is modelled by `""`, which JavaScript's truthiness test treats
the same way. -/
structure MappingEntry where
  pfx : String
  category : String
  deriving DecidableEq, Repr

/-- The normalised form of an entry's prefix. -/
def pfxNorm (e : MappingEntry) : List Char := lcList (trimList e.pfx.toList)

/-- One step of the `findMappedCategory` loop: skip invalid entries,
keep the running best (category, prefix length), replace it only on a
strictly longer matching prefix. -/
def fmcStep (normalizedPN : List Char) (best : Option (String × Nat))
    (entry : Option MappingEntry) : Option (String × Nat) :=
  match entry with
  | none => best
  | some e =>
    if e.pfx = "" ∨ e.category = "" then best
    else if pfxNorm e = [] then best
    else if (pfxNorm e).isPrefixOf normalizedPN = true then
      match best with
      | none => some (e.category, (pfxNorm e).length)
      | some (c0, l0) =>
        if l0 < (pfxNorm e).length then some (e.category, (pfxNorm e).length)
        else some (c0, l0)
    else best

/-- `findMappedCategory` (source lines 36–56): normalise the part
number, scan all mapping entries, and return the category of the best
(longest-prefix) match. -/
def findMappedCategory (partNumber : String)
    (mappings : List (Option MappingEntry)) : Option String :=
  if partNumber = "" then none
  else if lcList (trimList partNumber.toList) = [] then none
  else
    ((mappings.foldl (fmcStep (lcList (trimList partNumber.toList))) none).map
      (fun x => x.1))

/-! ## Main pipeline (`autoFillFromPartNumber`) -/

/-- The per-row state the engine writes: the description input's value,
the category `<select>`, and how many times the row-provisioning
capability (`addRow`) has been invoked. -/
structure RowState where
  description : String
  category : CategorySelect
  addRowSignals : Nat
  deriving DecidableEq, Repr

/-- The description half of the `applyAutofill` closure (source lines
512–514): a truthy description is written unconditionally. -/
def writeDescription (description : String) (s : RowState) : RowState :=
  if description ≠ "" then { s with description := description } else s

/-- The category half of the `applyAutofill` closure (source lines
515–526): a truthy category is applied only when no mapping-derived
category is locked or the normalised labels agree. -/
def writeCategory (locked : Bool) (mappedLower : Option String)
    (category : Option String) (s : RowState) : RowState :=
  match category with
  | none => s
  | some c =>
    if c = "" then s
    else if !locked ||
        (match mappedLower with
         | some m => m ≠ "" && normLabel c = m
         | none => false) then
      { s with category := setCategory s.category c }
    else s

/-- The `applyAutofill` closure (source lines 511–528): the description
write followed by the lock-guarded category write.  (The closure also
flips its `categoryLocked` flag, but every control path of the source
calls the closure at most once per invocation, so the flip is
unobservable.) -/
def applyAutofill (locked : Bool) (mappedLower : Option String)
    (description : String) (category : Option String) (s : RowState) : RowState :=
  writeCategory locked mappedLower category (writeDescription description s)

/-- The state after the pre-grammar mapping consultation (source lines
502–509): a mapped category is applied to the select immediately. -/
def mappedState (pn : String) (mappings : List (Option MappingEntry))
    (s : RowState) : RowState :=
  match findMappedCategory pn mappings with
  | some c => { s with category := setCategory s.category c }
  | none => s

/-- The row-provisioning block (source lines 630–633): when the current
input is the last `part_number` field (and the token, already known
non-empty here, is non-empty) invoke `addRow` once. -/
def addRowIf (isLastPN : Bool) (s : RowState) : RowState :=
  if isLastPN then { s with addRowSignals := s.addRowSignals + 1 } else s

/-- Grammars 3–8 of the cascade (resistor, diode, transistor, inductor,
IC, ESP32 module), tried in source order (lines 569–614). -/
def grammarsAfterCap (pn : String) : Option (String × Option String) :=
  match resSearch pn.toList with
  | some valueToken =>
    let formattedValue := formatResistor valueToken
    let watt := normalizeWattage (extractWattage pn)
    let tolerance := extractTolerance pn
    let parts :=
      [formattedValue] ++ (if watt ≠ "" then [watt] else []) ++
        (if tolerance ≠ "" then [tolerance] else [])
    some (String.intercalate ", " parts, some "Resistor")
  | none =>
    match buildDiodeDescription pn with
    | some di => some (di.description, some di.category)
    | none =>
      match buildTransistorDescription pn with
      | some ti => some (ti.description, some ti.category)
      | none =>
        match buildInductorDescription pn with
        | some ii => some (ii.description, some ii.category)
        | none =>
          match buildICDescription pn with
          | some ici => some (ici.description, some ici.category)
          | none =>
            if esp32Test pn.toList then
              some ("ESP32 series microcontroller", some "MCU")
            else none

/-- The grammar cascade (source lines 533–614): each matching branch of
the source calls `applyAutofill(description, category)` and returns, so
the cascade is embedded as the first `(description, category)` pair it
produces.  The capacitor branch falls through to the later grammars
when its assembled description is empty (source line 559).  The
category select is consulted only by the mechanical branch's
`categoryOptionExists` fallback. -/
def grammarResult (pn lower : String) (catSel : CategorySelect) :
    Option (String × Option String) :=
  match buildMechanicalDescription pn with
  | some mechanicalInfo =>
    let categoryToApply :=
      match mechanicalInfo.category with
      | some c => some c
      | none =>
        if mechanicalInfo.typeLabel ≠ "" &&
            categoryOptionExists catSel mechanicalInfo.typeLabel then
          some mechanicalInfo.typeLabel
        else none
    some (mechanicalInfo.description, categoryToApply)
  | none =>
    match capTokenSearch lower.toList with
    | some capTok =>
      let uf := parseCapacitance capTok
      let volt := extractVoltage lower
      let finalDesc0 := match uf with | some u => ucStr u | none => ""
      let finalDesc :=
        if volt ≠ "" then
          (if finalDesc0 ≠ "" then finalDesc0 ++ ", " ++ volt else volt)
        else finalDesc0
      if finalDesc ≠ "" then some (finalDesc, some "Capacitor")
      else grammarsAfterCap pn
    | none => grammarsAfterCap pn

/-- The body of `autoFillFromPartNumber` after the trim guard: mapping
consultation, grammar cascade, generic fallback (only on an empty
description destination), and the row-provisioning block reached only
when nothing matched and the fallback produced nothing. -/
def autoFillCore (pn lower : String) (mappings : List (Option MappingEntry))
    (isLastPN : Bool) (s : RowState) : RowState :=
  let mapped := findMappedCategory pn mappings
  let s1 := mappedState pn mappings s
  let locked := mapped.isSome
  let mappedLower := mapped.map normLabel
  match grammarResult pn lower s1.category with
  | some (d, c) => applyAutofill locked mappedLower d c s1
  | none =>
    if s1.description = "" then
      let fallbackDesc := fallbackDescriptionFromPartNumber pn
      if fallbackDesc ≠ "" then applyAutofill locked mappedLower fallbackDesc none s1
      else addRowIf isLastPN s1
    else addRowIf isLastPN s1

/-- `autoFillFromPartNumber` (source lines 483–634).  `value` is the
part-number input's raw text; `isLastPN` states that the document's
`part_number` input list is non-empty and this input is its last
element; the description and category destinations are assumed
resolvable (when they are not, the source aborts without touching any
state, exactly like the empty-token guard). -/
def autoFillFromPartNumber (value : String)
    (mappings : List (Option MappingEntry)) (isLastPN : Bool)
    (s : RowState) : RowState :=
  let pn := jsTrim value
  if pn = "" then s
  else autoFillCore pn (lcStr pn) mappings isLastPN s

/-- The action of the pre-grammar mapping consultation on the category
select alone (derived view of `mappedState` used in statements). -/
def catMapped (mapped : Option String) (sel : CategorySelect) : CategorySelect :=
  match mapped with
  | some c => setCategory sel c
  | none => sel

/-- The action of the `applyAutofill` category write on the category
select alone, with the lock state derived from the mapping result
(derived view used in statements). -/
def catApply (mapped : Option String) (copt : Option String)
    (sel : CategorySelect) : CategorySelect :=
  match copt with
  | none => sel
  | some g =>
    if g = "" then sel
    else if !mapped.isSome ||
        (match mapped.map normLabel with
         | some m => m ≠ "" && normLabel g = m
         | none => false) then setCategory sel g
    else sel

/-! ## Fixtures and statement vocabulary -/

/-- A concrete category `<select>` option list holding every category
label the grammars can produce (as a form of this application would). -/
def sampleOptions : List SelectOption :=
  [⟨"Resistor", "1"⟩, ⟨"Capacitor", "2"⟩, ⟨"Diode", "3"⟩, ⟨"Transistor", "4"⟩,
   ⟨"Inductor", "5"⟩, ⟨"IC", "6"⟩, ⟨"MCU", "7"⟩, ⟨"Mechanical", "8"⟩,
   ⟨"Sensor", "9"⟩]

/-- A category select with nothing selected yet. -/
def sampleSelect : CategorySelect := ⟨sampleOptions, ""⟩

/-- A fresh row: empty description, nothing selected, no signals. -/
def sampleRow : RowState := ⟨"", sampleSelect, 0⟩

/-- A row whose description destination already holds text. -/
def filledRow : RowState := ⟨"x", sampleSelect, 0⟩

/-- A mapping entry survives `findMappedCategory`'s validity guards and
its normalised prefix starts the normalised part number. -/
def entryMatches (pn : String) (e : MappingEntry) : Prop :=
  e.pfx ≠ "" ∧ e.category ≠ "" ∧ pfxNorm e ≠ [] ∧
    (pfxNorm e).isPrefixOf (lcList (trimList pn.toList)) = true

/-- Length of an entry's normalised prefix. -/
def mlen (e : MappingEntry) : Nat := (pfxNorm e).length

/-! ## Lemma toolkit -/

theorem setCategory_mk (opts : List SelectOption) (v : String) (t : String) :
    setCategory ⟨opts, v⟩ t =
      ⟨opts,
        match opts.find? (fun o => normLabel o.text = normLabel t) with
        | some o => o.value
        | none => v⟩ := by
  unfold setCategory
  cases h : opts.find? (fun o => normLabel o.text = normLabel t) <;> simp [h]

theorem setCategory_options (sel : CategorySelect) (t : String) :
    (setCategory sel t).options = sel.options := by
  obtain ⟨opts, v⟩ := sel
  rw [setCategory_mk]

theorem setCategory_idem (sel : CategorySelect) (t : String) :
    setCategory (setCategory sel t) t = setCategory sel t := by
  obtain ⟨opts, v⟩ := sel
  simp only [setCategory_mk]
  cases h : opts.find? (fun o => normLabel o.text = normLabel t) <;> simp [h]

theorem setCategory_label_congr (sel : CategorySelect) (a b : String)
    (h : normLabel a = normLabel b) : setCategory sel a = setCategory sel b := by
  unfold setCategory
  rw [h]

theorem setCategory_twice (x : CategorySelect) (a b : String) :
    setCategory (setCategory (setCategory (setCategory x a) b) a) b =
      setCategory (setCategory x a) b := by
  obtain ⟨opts, v⟩ := x
  simp only [setCategory_mk]
  cases hb : opts.find? (fun o => normLabel o.text = normLabel b) with
  | some ob => simp [hb]
  | none =>
    simp only [hb]
    cases ha : opts.find? (fun o => normLabel o.text = normLabel a) <;> simp [ha]

theorem categoryOptionExists_congr {s1 s2 : CategorySelect}
    (h : s1.options = s2.options) (t : String) :
    categoryOptionExists s1 t = categoryOptionExists s2 t := by
  unfold categoryOptionExists
  rw [h]

theorem writeDescription_description (d : String) (s : RowState) :
    (writeDescription d s).description = if d ≠ "" then d else s.description := by
  unfold writeDescription
  split <;> rfl

theorem writeDescription_category (d : String) (s : RowState) :
    (writeDescription d s).category = s.category := by
  unfold writeDescription
  split <;> rfl

theorem writeDescription_addRowSignals (d : String) (s : RowState) :
    (writeDescription d s).addRowSignals = s.addRowSignals := by
  unfold writeDescription
  split <;> rfl

theorem writeCategory_description (locked : Bool) (ml : Option String)
    (c : Option String) (s : RowState) :
    (writeCategory locked ml c s).description = s.description := by
  unfold writeCategory
  cases c with
  | none => rfl
  | some g =>
    dsimp only
    split
    case isTrue => rfl
    case isFalse => split <;> rfl

theorem writeCategory_addRowSignals (locked : Bool) (ml : Option String)
    (c : Option String) (s : RowState) :
    (writeCategory locked ml c s).addRowSignals = s.addRowSignals := by
  unfold writeCategory
  cases c with
  | none => rfl
  | some g =>
    dsimp only
    split
    case isTrue => rfl
    case isFalse => split <;> rfl

theorem writeCategory_category (locked : Bool) (ml : Option String)
    (copt : Option String) (s : RowState) :
    (writeCategory locked ml copt s).category =
      match copt with
      | none => s.category
      | some g =>
        if g = "" then s.category
        else if !locked ||
            (match ml with
             | some m => m ≠ "" && normLabel g = m
             | none => false) then setCategory s.category g
        else s.category := by
  unfold writeCategory
  cases copt with
  | none => rfl
  | some g =>
    dsimp only
    split
    case isTrue => rfl
    case isFalse => split <;> rfl

theorem applyAutofill_description (locked : Bool) (ml : Option String)
    (d : String) (c : Option String) (s : RowState) :
    (applyAutofill locked ml d c s).description =
      if d ≠ "" then d else s.description := by
  unfold applyAutofill
  rw [writeCategory_description, writeDescription_description]

theorem applyAutofill_addRowSignals (locked : Bool) (ml : Option String)
    (d : String) (c : Option String) (s : RowState) :
    (applyAutofill locked ml d c s).addRowSignals = s.addRowSignals := by
  unfold applyAutofill
  rw [writeCategory_addRowSignals, writeDescription_addRowSignals]

theorem applyAutofill_category (locked : Bool) (ml : Option String)
    (d : String) (copt : Option String) (s : RowState) :
    (applyAutofill locked ml d copt s).category =
      match copt with
      | none => s.category
      | some g =>
        if g = "" then s.category
        else if !locked ||
            (match ml with
             | some m => m ≠ "" && normLabel g = m
             | none => false) then setCategory s.category g
        else s.category := by
  unfold applyAutofill
  rw [writeCategory_category, writeDescription_category]

theorem applyAutofill_options (locked : Bool) (ml : Option String)
    (d : String) (copt : Option String) (s : RowState) :
    (applyAutofill locked ml d copt s).category.options = s.category.options := by
  rw [applyAutofill_category]
  cases copt with
  | none => rfl
  | some g =>
    dsimp only
    split
    case isTrue => rfl
    case isFalse =>
      split
      case isTrue => exact setCategory_options _ _
      case isFalse => rfl

theorem mappedState_description (pn : String) (ms : List (Option MappingEntry))
    (s : RowState) : (mappedState pn ms s).description = s.description := by
  unfold mappedState
  split <;> rfl

theorem mappedState_addRowSignals (pn : String) (ms : List (Option MappingEntry))
    (s : RowState) : (mappedState pn ms s).addRowSignals = s.addRowSignals := by
  unfold mappedState
  split <;> rfl

theorem mappedState_options (pn : String) (ms : List (Option MappingEntry))
    (s : RowState) : (mappedState pn ms s).category.options = s.category.options := by
  unfold mappedState
  split
  case h_1 c h => exact setCategory_options _ _
  case h_2 => rfl

theorem addRowIf_description (b : Bool) (s : RowState) :
    (addRowIf b s).description = s.description := by
  unfold addRowIf
  split <;> rfl

theorem addRowIf_category (b : Bool) (s : RowState) :
    (addRowIf b s).category = s.category := by
  unfold addRowIf
  split <;> rfl

theorem grammarResult_congr (pn lower : String) {s1 s2 : CategorySelect}
    (h : s1.options = s2.options) :
    grammarResult pn lower s1 = grammarResult pn lower s2 := by
  unfold grammarResult
  cases hb : buildMechanicalDescription pn with
  | none => rfl
  | some mi =>
    simp only [categoryOptionExists_congr h]

theorem mappedState_category (pn : String) (ms : List (Option MappingEntry))
    (s : RowState) :
    (mappedState pn ms s).category =
      catMapped (findMappedCategory pn ms) s.category := by
  unfold mappedState catMapped
  cases h : findMappedCategory pn ms <;> simp [h]

theorem catMapped_options (m : Option String) (sel : CategorySelect) :
    (catMapped m sel).options = sel.options := by
  unfold catMapped
  cases m with
  | none => rfl
  | some c => exact setCategory_options _ _

theorem catMapped_idem (m : Option String) (sel : CategorySelect) :
    catMapped m (catMapped m sel) = catMapped m sel := by
  unfold catMapped
  cases m with
  | none => rfl
  | some c => exact setCategory_idem _ _

theorem catApply_options (m copt : Option String) (sel : CategorySelect) :
    (catApply m copt sel).options = sel.options := by
  unfold catApply
  cases copt with
  | none => rfl
  | some g =>
    dsimp only
    split
    case isTrue => rfl
    case isFalse =>
      split
      case isTrue => exact setCategory_options _ _
      case isFalse => rfl

theorem catStep_idem (m copt : Option String) (sel : CategorySelect) :
    catApply m copt (catMapped m (catApply m copt (catMapped m sel))) =
      catApply m copt (catMapped m sel) := by
  cases copt with
  | none =>
    show catMapped m (catMapped m sel) = catMapped m sel
    exact catMapped_idem m sel
  | some g =>
    unfold catApply
    dsimp only
    split
    case isTrue => exact catMapped_idem m sel
    case isFalse =>
      split
      case isTrue =>
        cases m with
        | none =>
          show setCategory (setCategory sel g) g = setCategory sel g
          exact setCategory_idem sel g
        | some c0 =>
          show setCategory (setCategory (setCategory (setCategory sel c0) g) c0) g
              = setCategory (setCategory sel c0) g
          exact setCategory_twice sel c0 g
      case isFalse => exact catMapped_idem m sel

theorem addRowIf_addRowSignals (b : Bool) (s : RowState) :
    (addRowIf b s).addRowSignals =
      if b = true then s.addRowSignals + 1 else s.addRowSignals := by
  unfold addRowIf
  cases b <;> simp

theorem autoFillCore_description (pn lower : String)
    (ms : List (Option MappingEntry)) (last : Bool) (s : RowState) :
    (autoFillCore pn lower ms last s).description =
      match grammarResult pn lower s.category with
      | some (d, _) => if d ≠ "" then d else s.description
      | none =>
        if s.description = "" then
          (if fallbackDescriptionFromPartNumber pn ≠ ""
           then fallbackDescriptionFromPartNumber pn else s.description)
        else s.description := by
  simp only [autoFillCore]
  rw [grammarResult_congr pn lower (mappedState_options pn ms s)]
  cases hg : grammarResult pn lower s.category with
  | some pair =>
    obtain ⟨d, c⟩ := pair
    dsimp only
    rw [applyAutofill_description, mappedState_description]
  | none =>
    dsimp only
    rw [mappedState_description]
    by_cases hd : s.description = ""
    · rw [if_pos hd, if_pos hd]
      by_cases hf : fallbackDescriptionFromPartNumber pn = ""
      · rw [if_neg (by simp [hf]), if_neg (by simp [hf]), addRowIf_description,
          mappedState_description]
      · rw [if_pos hf, if_pos hf, applyAutofill_description, if_pos hf]
    · rw [if_neg hd, if_neg hd, addRowIf_description, mappedState_description]

theorem autoFillCore_category (pn lower : String)
    (ms : List (Option MappingEntry)) (last : Bool) (s : RowState) :
    (autoFillCore pn lower ms last s).category =
      match grammarResult pn lower s.category with
      | some (_, copt) =>
        catApply (findMappedCategory pn ms) copt
          (catMapped (findMappedCategory pn ms) s.category)
      | none => catMapped (findMappedCategory pn ms) s.category := by
  simp only [autoFillCore]
  rw [grammarResult_congr pn lower (mappedState_options pn ms s)]
  cases hg : grammarResult pn lower s.category with
  | some pair =>
    obtain ⟨d, copt⟩ := pair
    dsimp only
    rw [applyAutofill_category, mappedState_category]
    unfold catApply
    cases copt with
    | none => rfl
    | some g => rfl
  | none =>
    dsimp only
    rw [mappedState_description]
    by_cases hd : s.description = ""
    · rw [if_pos hd]
      by_cases hf : fallbackDescriptionFromPartNumber pn = ""
      · rw [if_neg (by simp [hf]), addRowIf_category, mappedState_category]
      · rw [if_pos hf, applyAutofill_category, mappedState_category]
    · rw [if_neg hd, addRowIf_category, mappedState_category]

theorem autoFillCore_options (pn lower : String)
    (ms : List (Option MappingEntry)) (last : Bool) (s : RowState) :
    (autoFillCore pn lower ms last s).category.options = s.category.options := by
  rw [autoFillCore_category]
  cases hg : grammarResult pn lower s.category with
  | some pair =>
    obtain ⟨d, copt⟩ := pair
    dsimp only
    rw [catApply_options, catMapped_options]
  | none =>
    dsimp only
    rw [catMapped_options]

theorem autoFillCore_addRowSignals (pn lower : String)
    (ms : List (Option MappingEntry)) (last : Bool) (s : RowState) :
    (autoFillCore pn lower ms last s).addRowSignals =
      if grammarResult pn lower s.category = none ∧
          (s.description ≠ "" ∨ fallbackDescriptionFromPartNumber pn = "") ∧
          last = true
      then s.addRowSignals + 1 else s.addRowSignals := by
  simp only [autoFillCore]
  rw [grammarResult_congr pn lower (mappedState_options pn ms s)]
  cases hg : grammarResult pn lower s.category with
  | some pair =>
    obtain ⟨d, copt⟩ := pair
    dsimp only
    rw [applyAutofill_addRowSignals, mappedState_addRowSignals,
      if_neg (by simp)]
  | none =>
    dsimp only
    rw [mappedState_description]
    by_cases hd : s.description = ""
    · rw [if_pos hd]
      by_cases hf : fallbackDescriptionFromPartNumber pn = ""
      · rw [if_neg (by simp [hf]), addRowIf_addRowSignals, mappedState_addRowSignals]
        cases last with
        | true => rw [if_pos rfl, if_pos (by simp [hd, hf])]
        | false =>
          rw [if_neg (by simp), if_neg (by simp)]
      · rw [if_pos hf, applyAutofill_addRowSignals, mappedState_addRowSignals,
          if_neg (by simp [hd, hf])]
    · rw [if_neg hd, addRowIf_addRowSignals, mappedState_addRowSignals]
      cases last with
      | true => rw [if_pos rfl, if_pos (by simp [hd])]
      | false =>
        rw [if_neg (by simp), if_neg (by simp)]

/-! ## Claim C9 -/

/-- Claim C9: for every input whose trimmed token is empty, the
single-token invocation is a complete no-op — no mapping consultation,
no grammar, no description/category write, no row-provisioning
signal: the resulting state is exactly the initial state. -/
theorem c9_empty_token_noop (v : String) (ms : List (Option MappingEntry))
    (last : Bool) (s : RowState) (h : jsTrim v = "") :
    autoFillFromPartNumber v ms last s = s := by
  simp [autoFillFromPartNumber, h]

/-- Witness for C9 at the whitespace-only input `"   "`. -/
theorem c9_empty_token_noop_witness :
    jsTrim "   " = "" ∧ autoFillFromPartNumber "   " [] true sampleRow = sampleRow :=
  ⟨by decide, c9_empty_token_noop "   " [] true sampleRow (by decide)⟩

/-! ## Claim C10 -/

/-- Claim C10: category-prefix resolution is total over malformed
configuration — an empty part number yields `none`, a whitespace-only
part number yields `none`, entries that are `null` or lack a non-empty
prefix or category are skipped without affecting the rest of the
lookup, and an empty table yields `none`. -/
theorem c10_malformed_config_total :
    (∀ ms, findMappedCategory "" ms = none) ∧
    (∀ (pn : String) ms, jsTrim pn = "" → findMappedCategory pn ms = none) ∧
    (∀ (pn : String) (e : Option MappingEntry) ms,
      (e = none ∨ ∃ x, e = some x ∧ (x.pfx = "" ∨ x.category = "" ∨ pfxNorm x = [])) →
      findMappedCategory pn (e :: ms) = findMappedCategory pn ms) ∧
    findMappedCategory "abc" [] = none := by
  refine ⟨?_, ?_, ?_, by decide⟩
  · intro ms
    simp [findMappedCategory]
  · intro pn ms h
    have h2 : trimList pn.toList = [] := congrArg String.toList h
    unfold findMappedCategory
    by_cases hpn : pn = ""
    · rw [if_pos hpn]
    · rw [if_neg hpn, if_pos (by rw [h2]; rfl)]
  · intro pn e ms h
    unfold findMappedCategory
    by_cases hpn : pn = ""
    · rw [if_pos hpn, if_pos hpn]
    · rw [if_neg hpn, if_neg hpn]
      by_cases hn : lcList (trimList pn.toList) = []
      · rw [if_pos hn, if_pos hn]
      · rw [if_neg hn, if_neg hn, List.foldl_cons]
        have hstep : fmcStep (lcList (trimList pn.toList)) none e = none := by
          rcases h with rfl | ⟨x, rfl, hx⟩
          · rfl
          · unfold fmcStep
            dsimp only
            rcases hx with h1 | h1 | h1
            · rw [if_pos (Or.inl h1)]
            · rw [if_pos (Or.inr h1)]
            · by_cases h0 : x.pfx = "" ∨ x.category = ""
              · rw [if_pos h0]
              · rw [if_neg h0, if_pos h1]
        rw [hstep]

/-- Witness for C10's skip clause: a `null` entry changes nothing. -/
theorem c10_malformed_config_total_witness :
    findMappedCategory "x" [(none : Option MappingEntry)] =
      findMappedCategory "x" [] :=
  c10_malformed_config_total.2.2.1 "x" none [] (Or.inl rfl)

/-! ## Claim C5 -/

/-- Accumulator bound: scanning entries whose matching prefixes are all
shorter than `L` keeps the accumulator below `L`. -/
theorem fmc_fold_lt (n : List Char) (L : Nat) :
    ∀ (xs : List (Option MappingEntry)) (acc : Option (String × Nat)),
      (∀ y : MappingEntry, some y ∈ xs →
        ¬(y.pfx = "" ∨ y.category = "") → pfxNorm y ≠ [] →
        (pfxNorm y).isPrefixOf n = true → (pfxNorm y).length < L) →
      (acc = none ∨ ∃ c l, acc = some (c, l) ∧ l < L) →
      (xs.foldl (fmcStep n) acc = none ∨
        ∃ c l, xs.foldl (fmcStep n) acc = some (c, l) ∧ l < L) := by
  intro xs
  induction xs with
  | nil => intro acc _ hacc; exact hacc
  | cons x xs ih =>
    intro acc hx hacc
    rw [List.foldl_cons]
    refine ih _ (fun y hy => hx y (List.mem_cons_of_mem x hy)) ?_
    cases x with
    | none => exact hacc
    | some y =>
      unfold fmcStep
      dsimp only
      by_cases h0 : y.pfx = "" ∨ y.category = ""
      · rw [if_pos h0]; exact hacc
      · rw [if_neg h0]
        by_cases h1 : pfxNorm y = []
        · rw [if_pos h1]; exact hacc
        · rw [if_neg h1]
          by_cases h2 : (pfxNorm y).isPrefixOf n = true
          · rw [if_pos h2]
            have hlt : (pfxNorm y).length < L :=
              hx y (List.mem_cons_self _ _) h0 h1 h2
            rcases hacc with rfl | ⟨c, l, rfl, hl⟩
            · exact Or.inr ⟨y.category, (pfxNorm y).length, rfl, hlt⟩
            · dsimp only
              by_cases h3 : l < (pfxNorm y).length
              · rw [if_pos h3]
                exact Or.inr ⟨y.category, (pfxNorm y).length, rfl, hlt⟩
              · rw [if_neg h3]
                exact Or.inr ⟨c, l, rfl, hl⟩
          · rw [if_neg h2]; exact hacc

/-- Keeping lemma: once the accumulator holds length `L`, entries whose
matching prefixes are at most `L` long never replace it. -/
theorem fmc_fold_keep (n : List Char) (c : String) (L : Nat) :
    ∀ xs : List (Option MappingEntry),
      (∀ y : MappingEntry, some y ∈ xs →
        ¬(y.pfx = "" ∨ y.category = "") → pfxNorm y ≠ [] →
        (pfxNorm y).isPrefixOf n = true → (pfxNorm y).length ≤ L) →
      xs.foldl (fmcStep n) (some (c, L)) = some (c, L) := by
  intro xs
  induction xs with
  | nil => intro _; rfl
  | cons x xs ih =>
    intro hx
    rw [List.foldl_cons]
    have hstep : fmcStep n (some (c, L)) x = some (c, L) := by
      cases x with
      | none => rfl
      | some y =>
        unfold fmcStep
        dsimp only
        by_cases h0 : y.pfx = "" ∨ y.category = ""
        · rw [if_pos h0]
        · rw [if_neg h0]
          by_cases h1 : pfxNorm y = []
          · rw [if_pos h1]
          · rw [if_neg h1]
            by_cases h2 : (pfxNorm y).isPrefixOf n = true
            · rw [if_pos h2]
              have hle : (pfxNorm y).length ≤ L :=
                hx y (List.mem_cons_self _ _) h0 h1 h2
              rw [if_neg (by omega)]
            · rw [if_neg h2]
    rw [hstep]
    exact ih (fun y hy => hx y (List.mem_cons_of_mem x hy))

/-- Claim C5: for every token and prefix-mapping table, when several
valid entries' normalised prefixes start the normalised token, the
category of the entry with the longest matching prefix is returned,
ties broken in favour of the first-declared entry: any decomposition
`pre ++ e :: post` where `e` matches, all matches before it are
strictly shorter, and all other matches are no longer, resolves to
`e.category`. -/
theorem c5_longest_prefix_wins (pn : String)
    (pre post : List (Option MappingEntry)) (e : MappingEntry)
    (hm : entryMatches pn e)
    (hpre : ∀ y : MappingEntry, some y ∈ pre → entryMatches pn y → mlen y < mlen e)
    (hpost : ∀ y : MappingEntry, some y ∈ post → entryMatches pn y → mlen y ≤ mlen e) :
    findMappedCategory pn (pre ++ some e :: post) = some e.category := by
  obtain ⟨h1, h2, h3, h4⟩ := hm
  have hn : lcList (trimList pn.toList) ≠ [] := by
    intro hnil
    rw [hnil] at h4
    cases hpfx : pfxNorm e with
    | nil => exact h3 hpfx
    | cons a l => rw [hpfx] at h4; simp [List.isPrefixOf] at h4
  have hpn : pn ≠ "" := by
    intro hpn'
    apply hn
    rw [hpn']
    rfl
  unfold findMappedCategory
  rw [if_neg hpn, if_neg hn, List.foldl_append, List.foldl_cons]
  have hacc := fmc_fold_lt (lcList (trimList pn.toList)) (mlen e) pre none
    (fun y hy hv0 hv1 hv2 => hpre y hy ⟨by tauto, by tauto, hv1, hv2⟩)
    (Or.inl rfl)
  have hstep : ∀ acc : Option (String × Nat),
      (acc = none ∨ ∃ c l, acc = some (c, l) ∧ l < mlen e) →
      fmcStep (lcList (trimList pn.toList)) acc (some e) =
        some (e.category, mlen e) := by
    intro acc hacc2
    unfold fmcStep
    dsimp only
    rw [if_neg (by tauto), if_neg h3, if_pos h4]
    rcases hacc2 with rfl | ⟨c, l, rfl, hl⟩
    · rfl
    · dsimp only
      simp only [mlen] at hl
      rw [if_pos hl]
      rfl
  rw [hstep _ hacc]
  rw [fmc_fold_keep (lcList (trimList pn.toList)) e.category (mlen e) post
    (fun y hy hv0 hv1 hv2 => hpost y hy ⟨by tauto, by tauto, hv1, hv2⟩)]
  rfl

/-- Witness for C5: with mappings `RES → Resistor-Custom` and
`RES4 → Special`, the token `RES470R` resolves to `Special` (the longer
prefix, declared second). -/
theorem c5_longest_prefix_wins_witness :
    findMappedCategory "RES470R"
      [some ⟨"RES", "Resistor-Custom"⟩, some ⟨"RES4", "Special"⟩] = some "Special" := by
  have h := c5_longest_prefix_wins "RES470R" [some ⟨"RES", "Resistor-Custom"⟩] []
    ⟨"RES4", "Special"⟩
    (by refine ⟨by decide, by decide, by decide, by decide⟩)
    (by
      intro y hy hm
      simp only [List.mem_singleton, Option.some.injEq] at hy
      subst hy
      decide)
    (by intro y hy; simp at hy)
  simpa using h

/-! ## Claim C2 -/

theorem takeWhile_of_all {p : Char → Bool} :
    ∀ l : List Char, (∀ c ∈ l, p c = true) → l.takeWhile p = l := by
  intro l
  induction l with
  | nil => intro _; rfl
  | cons c t ih =>
    intro h
    rw [List.takeWhile_cons, h c (List.mem_cons_self _ _)]
    rw [ih (fun x hx => h x (List.mem_cons_of_mem c hx))]
    rfl

theorem dropWhile_of_all {p : Char → Bool} :
    ∀ l : List Char, (∀ c ∈ l, p c = true) → l.dropWhile p = [] := by
  intro l
  induction l with
  | nil => intro _; rfl
  | cons c t ih =>
    intro h
    rw [List.dropWhile_cons, h c (List.mem_cons_self _ _)]
    exact ih (fun x hx => h x (List.mem_cons_of_mem c hx))


theorem dropWhile_of_none {p : Char → Bool} :
    ∀ l : List Char, (∀ c ∈ l, p c = false) → l.dropWhile p = l := by
  intro l
  induction l with
  | nil => intro _; rfl
  | cons c t _ =>
    intro h
    rw [List.dropWhile_cons, h c (List.mem_cons_self _ _)]
    rfl

theorem isDig_toUpper (c : Char) (h : isDig c = true) : c.toUpper = c := by
  simp only [isDig, Char.isDigit] at h
  have h2 : c.toNat ≤ 57 := of_decide_eq_true ((Bool.and_eq_true _ _).mp h).2
  unfold Char.toUpper
  dsimp only
  rw [if_neg (by omega)]

theorem isDig_not_ws (c : Char) (h : isDig c = true) : isWS c = false := by
  cases hw : isWS c
  · rfl
  · exfalso
    simp only [isWS, Char.isWhitespace, Bool.or_eq_true, decide_eq_true_eq] at hw
    rcases hw with ((rfl | rfl) | rfl) | rfl <;> exact absurd h (by decide)

theorem isDig_ne_sign (c : Char) (h : isDig c = true) : ¬(c = '-' ∨ c = '+') := by
  rintro (rfl | rfl) <;> exact absurd h (by decide)

theorem map_toUpper_digits :
    ∀ ds : List Char, (∀ c ∈ ds, isDig c = true) → ds.map Char.toUpper = ds := by
  intro ds
  induction ds with
  | nil => intro _; rfl
  | cons c t ih =>
    intro h
    rw [List.map_cons, isDig_toUpper c (h c (List.mem_cons_self _ _)),
      ih (fun x hx => h x (List.mem_cons_of_mem c hx))]

theorem decToRat_nil (ds : List Char) : decToRat ds [] = ⟨(digitsToNat ds : ℤ), 1⟩ := by
  simp [decToRat, digitsToNat]

theorem parseFloatList_digits (ds : List Char) (hne : ds ≠ [])
    (hd : ∀ c ∈ ds, isDig c = true) :
    parseFloatList ds = some ⟨(digitsToNat ds : ℤ), 1⟩ := by
  unfold parseFloatList
  have hws : ds.dropWhile isWS = ds :=
    dropWhile_of_none ds (fun c hc => isDig_not_ws c (hd c hc))
  dsimp only
  rw [hws]
  cases ds with
  | nil => exact absurd rfl hne
  | cons c t =>
    have hc : isDig c = true := hd c (List.mem_cons_self _ _)
    have hsign := isDig_ne_sign c hc
    dsimp only
    rw [if_neg hsign]
    rw [takeWhile_of_all (c :: t) hd, dropWhile_of_all (c :: t) hd]
    dsimp only
    rw [if_neg (by simp)]
    have hnegc : (decide (c = '-')) = false := by
      simp only [decide_eq_false_iff_not]
      intro rfl1
      exact hsign (Or.inl rfl1)
    rw [hnegc]
    rw [if_neg (by simp)]
    rw [decToRat_nil]

theorem rkmShorthand_digits (ds : List Char) (hne : ds ≠ [])
    (hd : ∀ c ∈ ds, isDig c = true) : rkmShorthand ds = none := by
  unfold rkmShorthand
  rw [takeWhile_of_all ds hd, dropWhile_of_all ds hd]
  dsimp only
  rw [if_neg (by simp [hne])]

theorem rkmNumeric_digits (ds : List Char) (hne : ds ≠ [])
    (hd : ∀ c ∈ ds, isDig c = true) : rkmNumeric ds = none := by
  unfold rkmNumeric
  rw [takeWhile_of_all ds hd, dropWhile_of_all ds hd]
  dsimp only
  rw [if_neg (by simp [hne])]

/-- Claim C2 as stated is false on the code: `formatResistor "4700"`
scales to `kΩ` with `toFixed(2)` and only an exact `.00` suffix is
stripped, so the result is `"4.70kΩ"`, not `"4.7kΩ"`. -/
theorem c2_counterexample :
    formatResistor "4700" = "4.70kΩ" ∧ formatResistor "4700" ≠ "4.7kΩ" := by
  constructor
  · decide
  · decide

/-- Claim C2 amended: `formatResistor` returns `"4.70kΩ"` for `"4700"`
(the trailing zero of `toFixed(2)` survives because only a literal
`.00` suffix is stripped), `"470Ω"` for `"470"`, `"4.7kΩ"` for `"4K7"`;
and in general a bare digit-only value in `[1000, 1000000)` is scaled
to `kΩ` via two-decimal rounding with an exact `.00` suffix stripped. -/
theorem c2_amended :
    formatResistor "4700" = "4.70kΩ" ∧
    formatResistor "470" = "470Ω" ∧
    formatResistor "4K7" = "4.7kΩ" ∧
    (∀ ds : List Char, ds ≠ [] → (∀ c ∈ ds, isDig c = true) →
      1000 ≤ digitsToNat ds → digitsToNat ds < 1000000 →
      formatResistor (String.mk ds) =
        stripDotZeroZero (ratToFixed2 (jqDivNat ⟨(digitsToNat ds : ℤ), 1⟩ 1000))
          ++ "kΩ") := by
  refine ⟨by decide, by decide, by decide, ?_⟩
  intro ds hne hd h1 h2
  have hro : rOnlyMatch ds = none := by
    unfold rOnlyMatch
    rw [rkmNumeric_digits ds hne hd]
  have hpf : parseFloatQ (String.mk ds) = some ⟨(digitsToNat ds : ℤ), 1⟩ :=
    parseFloatList_digits ds hne hd
  unfold formatResistor
  have hupper : (ucStr (String.mk ds)).toList = ds := by
    show ((String.mk ds).toList.map Char.toUpper : List Char) = ds
    exact map_toUpper_digits ds hd
  dsimp only
  rw [hupper]
  rw [rkmShorthand_digits ds hne hd]
  dsimp only
  rw [rkmNumeric_digits ds hne hd]
  dsimp only
  rw [hro]
  dsimp only
  rw [hpf]
  dsimp only
  rw [if_neg (by
    simp only [jqLe, jqOfNat, decide_eq_true_eq, not_le]
    push_cast
    omega)]
  rw [if_pos (by
    simp only [jqLe, jqOfNat, decide_eq_true_eq]
    push_cast
    omega)]

/-- Witness for C2's general clause at the digits of `4700`. -/
theorem c2_amended_witness :
    formatResistor (String.mk ['4', '7', '0', '0']) =
      stripDotZeroZero
        (ratToFixed2 (jqDivNat ⟨(digitsToNat ['4', '7', '0', '0'] : ℤ), 1⟩ 1000))
        ++ "kΩ" :=
  c2_amended.2.2.2 ['4', '7', '0', '0'] (by decide) (by decide) (by decide) (by decide)

/-! ## Claim C3 -/

/-- Claim C3 as stated fails on the code: processing `"MEC-WSH-M3-5mm"`
yields the description `Washer M3 .20" diameter`, not
`Washer M3 0.2" diameter` — `formatInches` strips a trailing zero only
for values ≥ 1 and strips the leading `0` of values below 1, so the
`5mm` spec token renders as `.20"`. -/
theorem c3_counterexample :
    (autoFillFromPartNumber "MEC-WSH-M3-5mm" [] false sampleRow).description
      ≠ "Washer M3 0.2\" diameter" := by
  decide

/-- Claim C3 amended: the token `"MEC-WSH-M3-5mm"` yields the
description `Washer M3 .20" diameter` and the category `Mechanical`;
the size token `M3` is passed through upper-cased, and the spec token
`5mm` converts to `4/20` inch (nearest 0.05 increment) rendered as
`.20"` (two decimals; the trailing zero survives below 1, the leading
zero is stripped). -/
theorem c3_amended :
    buildMechanicalDescription "MEC-WSH-M3-5mm" =
      some ⟨"Washer M3 .20\" diameter", some "Mechanical", "Washer"⟩ ∧
    (autoFillFromPartNumber "MEC-WSH-M3-5mm" [] false sampleRow).description
      = "Washer M3 .20\" diameter" ∧
    (autoFillFromPartNumber "MEC-WSH-M3-5mm" [] false sampleRow).category
      = setCategory sampleSelect "Mechanical" ∧
    formatMechanicalSize "M3" true = "M3" ∧
    mmToInchesRounded "5mm" = some ⟨4, 20⟩ ∧
    formatMechanicalSpec "5mm" = ".20\"" := by
  exact ⟨by decide, by decide, by decide, by decide, by decide, by decide⟩

/-! ## Claim C4 -/

/-- Claim C4 as stated is false on the code: `"WSH-M3"` does not start
with `MEC-`/`MEC_`, yet the Mechanical grammar matches it (the prefix
strip is optional — `replace(/^mec[-_]?/i, "")` simply leaves other
tokens unchanged and the type-code lookup proceeds on the first hyphen
segment). -/
theorem c4_counterexample :
    mecTest "WSH-M3".toList = false ∧
    buildMechanicalDescription "WSH-M3" =
      some ⟨"Washer M3", some "Mechanical", "Washer"⟩ := by
  exact ⟨by decide, by decide⟩

/-- Claim C4 amended: the Mechanical grammar strips an *optional*
`MEC-`/`MEC_` prefix (case-insensitive) and matches exactly when the
token is non-empty and the first trimmed hyphen segment of the
(possibly unstripped) token lower-cases to a known mechanical type
code; an explicit `MEC` prefix is not required, and tokens whose first
segment is not a known type code decline and proceed down the
cascade. -/
theorem c4_amended : ∀ pn : String,
    (buildMechanicalDescription pn).isSome = true ↔
      (pn ≠ "" ∧ ∃ t ts, mechSegments pn = t :: ts ∧
        (MECHANICAL_TYPE_DETAILS (lcStr t)).isSome = true) := by
  intro pn
  constructor
  · intro h
    unfold buildMechanicalDescription at h
    by_cases hpn : pn = ""
    · rw [if_pos hpn] at h
      simp at h
    · rw [if_neg hpn] at h
      refine ⟨hpn, ?_⟩
      cases hseg : mechSegments pn with
      | nil => rw [hseg] at h; simp at h
      | cons t ts =>
        rw [hseg] at h
        dsimp only at h
        cases hlk : MECHANICAL_TYPE_DETAILS (lcStr t) with
        | none => rw [hlk] at h; simp at h
        | some td => exact ⟨t, ts, rfl, by rw [hlk]; rfl⟩
  · rintro ⟨hpn, t, ts, hseg, hsome⟩
    unfold buildMechanicalDescription
    rw [if_neg hpn, hseg]
    dsimp only
    cases hlk : MECHANICAL_TYPE_DETAILS (lcStr t) with
    | none => rw [hlk] at hsome; simp at hsome
    | some td =>
      dsimp only
      cases ts <;> simp

/-! ## Claim C6 -/

/-- Claim C6: when a prefix-mapping entry matches, its category is
applied and locked before the grammars run; a grammar-supplied category
survives only when it normalises to the locked one (in which case it
selects the same option), so the final category state is exactly
`setCategory` with the mapped category — while descriptions are written
unconditionally: the description outcome is identical to a run with an
empty mapping table. -/
theorem c6_mapping_lock (v : String) (ms : List (Option MappingEntry))
    (last : Bool) (s : RowState) (c : String)
    (h : findMappedCategory (jsTrim v) ms = some c) :
    (autoFillFromPartNumber v ms last s).category = setCategory s.category c ∧
    (autoFillFromPartNumber v ms last s).description
      = (autoFillFromPartNumber v [] last s).description := by
  have htrim : jsTrim v ≠ "" := by
    intro he
    rw [he] at h
    simp [findMappedCategory] at h
  unfold autoFillFromPartNumber
  rw [if_neg htrim, if_neg htrim]
  constructor
  · rw [autoFillCore_category, h]
    cases hg : grammarResult (jsTrim v) (lcStr (jsTrim v)) s.category with
    | none => simp [catMapped]
    | some pair =>
      obtain ⟨d, copt⟩ := pair
      dsimp only
      cases copt with
      | none => simp [catApply, catMapped]
      | some g =>
        simp only [catApply, catMapped]
        by_cases hgz : g = ""
        · rw [if_pos hgz]
        · rw [if_neg hgz]
          split
          · rename_i hcond
            simp only [Option.isSome_some, Bool.not_true, Bool.false_or,
              Option.map_some', Bool.and_eq_true, decide_eq_true_eq] at hcond
            rw [setCategory_label_congr _ g c hcond.2]
            exact setCategory_idem s.category c
          · rfl
  · rw [autoFillCore_description, autoFillCore_description]

/-- Witness for C6: mapping `X1 → Sensor` on token `"X1-100"`. -/
theorem c6_mapping_lock_witness :
    (autoFillFromPartNumber "X1-100" [some ⟨"X1", "Sensor"⟩] false sampleRow).category
        = setCategory sampleRow.category "Sensor" ∧
    (autoFillFromPartNumber "X1-100" [some ⟨"X1", "Sensor"⟩] false sampleRow).description
        = (autoFillFromPartNumber "X1-100" [] false sampleRow).description :=
  c6_mapping_lock "X1-100" [some ⟨"X1", "Sensor"⟩] false sampleRow "Sensor" (by decide)

/-! ## Claim C8 -/

/-- Claim C8: the generic fallback runs only when the description
destination is empty (a non-empty description survives a no-match run
untouched); when it fires it writes the humanised token join and leaves
the category stage exactly as the mapping consultation left it (it
never writes a category itself); a leading generic family code is
dropped and each remaining token is humanised — fractions get an inch
mark, digit+unit tokens upper-case, bare integers pass through, short
tokens upper-case, longer tokens capitalise — so `"WIDGET-42-BLUE"`
yields `"Widget 42 Blue"` with the category unchanged. -/
theorem c8_generic_fallback :
    (∀ (v : String) ms (last : Bool) (s : RowState),
      grammarResult (jsTrim v) (lcStr (jsTrim v)) s.category = none →
      s.description ≠ "" →
      (autoFillFromPartNumber v ms last s).description = s.description) ∧
    (∀ (v : String) ms (last : Bool) (s : RowState),
      jsTrim v ≠ "" →
      grammarResult (jsTrim v) (lcStr (jsTrim v)) s.category = none →
      s.description = "" →
      fallbackDescriptionFromPartNumber (jsTrim v) ≠ "" →
      (autoFillFromPartNumber v ms last s).description
          = fallbackDescriptionFromPartNumber (jsTrim v) ∧
        (autoFillFromPartNumber v ms last s).category
          = (mappedState (jsTrim v) ms s).category) ∧
    fallbackDescriptionFromPartNumber "WIDGET-42-BLUE" = "Widget 42 Blue" ∧
    ((autoFillFromPartNumber "WIDGET-42-BLUE" [] false sampleRow).description
        = "Widget 42 Blue" ∧
      (autoFillFromPartNumber "WIDGET-42-BLUE" [] false sampleRow).category
        = sampleRow.category) ∧
    (formatGeneralToken "3_8" = "3/8\"" ∧ formatGeneralToken "10mm" = "10MM" ∧
      formatGeneralToken "42" = "42" ∧ formatGeneralToken "usb" = "USB" ∧
      formatGeneralToken "BLUE" = "Blue" ∧
      fallbackDescriptionFromPartNumber "CAP-GREEN" = "Green") := by
  refine ⟨?_, ?_, by decide, ⟨by decide, by decide⟩,
    ⟨by decide, by decide, by decide, by decide, by decide, by decide⟩⟩
  · intro v ms last s hg hd
    unfold autoFillFromPartNumber
    by_cases htrim : jsTrim v = ""
    · rw [if_pos htrim]
    · rw [if_neg htrim, autoFillCore_description, hg]
      dsimp only
      rw [if_neg hd]
  · intro v ms last s htrim hg hd hf
    unfold autoFillFromPartNumber
    rw [if_neg htrim]
    constructor
    · rw [autoFillCore_description, hg]
      dsimp only
      rw [if_pos hd, if_pos hf]
    · rw [autoFillCore_category, hg, mappedState_category]

/-- Witness for C8's universally quantified clauses at the fallback
scenario token. -/
theorem c8_generic_fallback_witness :
    (autoFillFromPartNumber "WIDGET-42-BLUE" [] true filledRow).description
        = filledRow.description ∧
    (autoFillFromPartNumber "WIDGET-42-BLUE" [] true sampleRow).description
        = fallbackDescriptionFromPartNumber (jsTrim "WIDGET-42-BLUE") :=
  ⟨c8_generic_fallback.1 "WIDGET-42-BLUE" [] true filledRow (by decide) (by decide),
    (c8_generic_fallback.2.1 "WIDGET-42-BLUE" [] true sampleRow (by decide) (by decide)
      rfl (by decide)).1⟩

/-! ## Claim C1 -/

/-- Claim C1 as stated is false on the code: every successful grammar
branch returns before the row-provisioning block, so a matching token
in the last input field does not signal a new row.  `"IC-555"` matches
the IC grammar, the field is last and the trimmed token is non-empty,
yet no signal is sent. -/
theorem c1_counterexample :
    jsTrim "IC-555" ≠ "" ∧
    grammarResult (jsTrim "IC-555") (lcStr (jsTrim "IC-555")) sampleRow.category
      ≠ none ∧
    (autoFillFromPartNumber "IC-555" [] true sampleRow).addRowSignals
      = sampleRow.addRowSignals := by
  exact ⟨by decide, by decide, by decide⟩

/-- Claim C1 amended: for a non-empty trimmed token, the engine signals
exactly one additional row precisely when control falls through to the
end of the pipeline — no grammar matched, the generic fallback did not
write (the description destination was non-empty or the fallback
produced the empty string) — and the processed field is the last
part-number field; on every other path (any grammar match, or a
fallback write) no signal is sent. -/
theorem c1_amended (v : String) (ms : List (Option MappingEntry)) (last : Bool)
    (s : RowState) (h : jsTrim v ≠ "") :
    (autoFillFromPartNumber v ms last s).addRowSignals =
      if grammarResult (jsTrim v) (lcStr (jsTrim v)) s.category = none ∧
          (s.description ≠ "" ∨ fallbackDescriptionFromPartNumber (jsTrim v) = "") ∧
          last = true
      then s.addRowSignals + 1 else s.addRowSignals := by
  unfold autoFillFromPartNumber
  rw [if_neg h]
  exact autoFillCore_addRowSignals _ _ ms last s

/-- Witness for C1's amended form: an unmatched token over a filled
description signals exactly one row. -/
theorem c1_amended_witness :
    jsTrim "ZZZZ" ≠ "" ∧
    (autoFillFromPartNumber "ZZZZ" [] true filledRow).addRowSignals
      = filledRow.addRowSignals + 1 := by
  refine ⟨by decide, ?_⟩
  rw [c1_amended "ZZZZ" [] true filledRow (by decide)]
  decide

/-! ## Claim C7 -/

/-- Claim C7: the single-token pipeline is idempotent on the
description and category destinations — invoking it twice with the same
token and mapping table leaves both destinations exactly as one
invocation does, for every token, table and initial state. -/
theorem c7_idempotent (v : String) (ms : List (Option MappingEntry))
    (last : Bool) (s : RowState) :
    (autoFillFromPartNumber v ms last
        (autoFillFromPartNumber v ms last s)).description
      = (autoFillFromPartNumber v ms last s).description ∧
    (autoFillFromPartNumber v ms last
        (autoFillFromPartNumber v ms last s)).category
      = (autoFillFromPartNumber v ms last s).category := by
  unfold autoFillFromPartNumber
  by_cases htrim : jsTrim v = ""
  · rw [if_pos htrim, if_pos htrim]
    exact ⟨rfl, rfl⟩
  · rw [if_neg htrim, if_neg htrim]
    have hopts :
        (autoFillCore (jsTrim v) (lcStr (jsTrim v)) ms last s).category.options
          = s.category.options := autoFillCore_options _ _ _ _ _
    have hg2 :
        grammarResult (jsTrim v) (lcStr (jsTrim v))
            (autoFillCore (jsTrim v) (lcStr (jsTrim v)) ms last s).category
          = grammarResult (jsTrim v) (lcStr (jsTrim v)) s.category :=
      grammarResult_congr _ _ hopts
    constructor
    · rw [autoFillCore_description, autoFillCore_description, hg2]
      cases hgg : grammarResult (jsTrim v) (lcStr (jsTrim v)) s.category with
      | some pair =>
        obtain ⟨d, copt⟩ := pair
        dsimp only
        by_cases hd : d = ""
        · simp [hd]
        · simp [hd]
      | none =>
        dsimp only
        by_cases hd : s.description = ""
        · by_cases hf : fallbackDescriptionFromPartNumber (jsTrim v) = ""
          · simp [hd, hf]
          · simp [hd, hf]
        · simp [hd]
    · rw [autoFillCore_category (jsTrim v) (lcStr (jsTrim v)) ms last
        (autoFillCore (jsTrim v) (lcStr (jsTrim v)) ms last s)]
      rw [hg2]
      rw [autoFillCore_category (jsTrim v) (lcStr (jsTrim v)) ms last s]
      cases hgg : grammarResult (jsTrim v) (lcStr (jsTrim v)) s.category with
      | some pair =>
        obtain ⟨d, copt⟩ := pair
        dsimp only
        exact catStep_idem _ copt s.category
      | none =>
        dsimp only
        exact catMapped_idem _ s.category

end APOS
